import Mathlib

/-!
# Verification of the post-mapper address pipeline

A shallow embedding of the address mapping and validation pipeline
(`src/lib/mapper.ts`, the app component and the CSV export encoder),
with theorems checking the natural-language specification against it.

Modelling conventions:
* JavaScript strings are Lean `String`s (lists of Unicode scalar values);
  all characters involved are in the basic multilingual plane, so
  `String.length` agrees with JavaScript's UTF-16 `length`.
* JavaScript objects used as dictionaries are association lists with
  update-or-append assignment (`setVal`), matching JS semantics where a
  repeated assignment overwrites the value but keeps the key's position.
* Scalar cell values (`unknown` in the source) are `JSValue`:
  a string, an integer number, or `undefined`.
-/

set_option maxHeartbeats 1000000

namespace PostMapper

/-- The JavaScript whitespace class: the characters matched by the regex
class `\s` and stripped by `String.prototype.trim`. -/
def isWs (c : Char) : Bool :=
  [9, 10, 11, 12, 13, 32, 0xA0, 0x1680, 0x2028, 0x2029, 0x202F, 0x205F,
      0x3000, 0xFEFF].contains c.toNat
    || (0x2000 ≤ c.toNat && c.toNat ≤ 0x200A)

/-- The regex class `\d` (ASCII digits only, as in JavaScript). -/
def isDigitCh (c : Char) : Bool := '0' ≤ c && c ≤ '9'

/-- The ECMAScript line terminators (U+000A, U+000D, U+2028, U+2029):
the characters the regex `.` does not match. -/
def isLineTerm (c : Char) : Bool := [10, 13, 0x2028, 0x2029].contains c.toNat

/-- `String.prototype.toLowerCase`, modelled on the ASCII and Latin-1
uppercase letters (the ranges that occur in column headers and country
names in this application). -/
def lowerChar (c : Char) : Char :=
  if 'A' ≤ c ∧ c ≤ 'Z' then Char.ofNat (c.toNat + 32)
  else if 0xC0 ≤ c.toNat ∧ c.toNat ≤ 0xDE ∧ c.toNat ≠ 0xD7 then
    Char.ofNat (c.toNat + 32)
  else c

def jsToLower (s : String) : String := ⟨s.data.map lowerChar⟩

/-- Strip trailing JS whitespace from a character list. -/
def trimRightL (l : List Char) : List Char := (l.reverse.dropWhile isWs).reverse

/-- Strip leading and trailing JS whitespace. -/
def trimL (l : List Char) : List Char := trimRightL (l.dropWhile isWs)

/-- `String.prototype.trim`. -/
def jsTrim (s : String) : String := ⟨trimL s.data⟩

/-- Model of `str.replace(/\s+/g, " ")`: every maximal run of whitespace
characters is replaced by a single space.  The boolean flag records
whether the previous character was part of a whitespace run. -/
def collapseAux : Bool → List Char → List Char
  | _, [] => []
  | prevWs, c :: t =>
    if isWs c then
      if prevWs then collapseAux true t else ' ' :: collapseAux true t
    else c :: collapseAux false t

/-- Invariant of collapse output: every whitespace character is a single
space, and no whitespace character is followed by another one. -/
def wsCollapsed : List Char → Prop
  | [] => True
  | [c] => isWs c = true → c = ' '
  | a :: b :: t => (isWs a = true → a = ' ' ∧ isWs b = false) ∧ wsCollapsed (b :: t)

/-- Scalar cell value: JS `unknown` restricted to the value shapes the
pipeline receives (string, number, `undefined`). -/
inductive JSValue : Type
  | str : String → JSValue
  | num : Int → JSValue
  | undef : JSValue
deriving DecidableEq

/-- JS `String(value)` on the value shapes above. -/
def toStr : JSValue → String
  | .str s => s
  | .num n => toString n
  | .undef => "undefined"

/-- JS falsiness (`!value`): empty string, zero, and `undefined`. -/
def falsy : JSValue → Bool
  | .str s => s == ""
  | .num n => n == 0
  | .undef => true

/-- Dictionary lookup in an association list (JS `obj[key]`, `map.get`). -/
def getVal {κ α : Type} [DecidableEq κ] : List (κ × α) → κ → Option α
  | [], _ => none
  | (k, v) :: t, key => if k = key then some v else getVal t key

/-- Dictionary assignment (JS `obj[key] = v`, `map.set`): overwrite in
place when the key exists, append otherwise. -/
def setVal {κ α : Type} [DecidableEq κ] (m : List (κ × α)) (k : κ) (v : α) :
    List (κ × α) :=
  if (getVal m k).isSome then
    m.map (fun p => if p.1 = k then (k, v) else p)
  else m ++ [(k, v)]

/-- A row of the source spreadsheet: arbitrary column names to scalar
values (`RawRow`). -/
abbrev RawRow : Type := List (String × JSValue)

/-- One entry of the static ISO country table. -/
structure Country where
  englishShortName : String
  alpha2Code : String
  alpha3Code : String
  numeric : Nat
  germanShortName : String
deriving DecidableEq

/-- Modelled from the spec: the static ISO country reference table is the
asset `src/assets/countries.json`, which is not among the sources; the
spec describes it as the ISO 3166-1 list with English name, German name,
alpha-2, alpha-3 and numeric code per entry.  Representative entries
suffice for the pipeline's behaviour. -/
def countriesData : List Country :=
  [⟨"Germany", "DE", "DEU", 276, "Deutschland"⟩,
   ⟨"Austria", "AT", "AUT", 40, "Österreich"⟩,
   ⟨"France", "FR", "FRA", 250, "Frankreich"⟩,
   ⟨"United States of America", "US", "USA", 840, "Vereinigte Staaten"⟩]

/-- `buildCountryMapping` from `src/lib/mapper.ts`: register, per country,
the lower-cased English name, German name (when non-empty — the source
guards with JS truthiness), alpha-2 code and alpha-3 code, each mapping
to the alpha-3 code. -/
def buildCountryMapping : List (String × String) :=
  countriesData.foldl
    (fun m c =>
      let m1 := setVal m (jsToLower c.englishShortName) c.alpha3Code
      let m2 :=
        if c.germanShortName ≠ "" then
          setVal m1 (jsToLower c.germanShortName) c.alpha3Code
        else m1
      let m3 := setVal m2 (jsToLower c.alpha2Code) c.alpha3Code
      setVal m3 (jsToLower c.alpha3Code) c.alpha3Code)
    []

def countryMapping : List (String × String) := buildCountryMapping

/-- `DEFAULT_COLUMN_MAPPING` from `src/lib/mapper.ts`. -/
def DEFAULT_COLUMN_MAPPING : List (String × String) :=
  [("Anrede", "salutation"), ("Vorname", "first_name"), ("Name", "last_name"),
   ("Adresse1", "street"), ("Adresse2", "address_addition"),
   ("PLZ", "postal_code"), ("Ort", "city"), ("Land", "country")]

/-- The `normalizedMapping` loop of `mapColumns`: lower-case every alias
source key. -/
def normalizeAliases (mapping : List (String × String)) : List (String × String) :=
  mapping.foldl (fun m p => setVal m (jsToLower p.1) p.2) []

/-- The `if (normalizedMapping[lowerKey])` test of `mapColumns`: an alias
matches only when the stored target is present and truthy (non-empty). -/
def targetFor (nm : List (String × String)) (lk : String) : Option String :=
  match getVal nm lk with
  | some t => if t = "" then none else some t
  | none => none

/-- `mapColumns` from `src/lib/mapper.ts`: a caller-supplied alias table
replaces the default (`customMapping ?? DEFAULT_COLUMN_MAPPING`); each row
key is lower-cased, stored under the alias target when matched and under
its lower-cased form otherwise. -/
def mapColumns (row : RawRow) (customMapping : Option (List (String × String))) :
    RawRow :=
  let nm := normalizeAliases (customMapping.getD DEFAULT_COLUMN_MAPPING)
  row.foldl
    (fun m p =>
      let lk := jsToLower p.1
      match targetFor nm lk with
      | some t => setVal m t p.2
      | none => setVal m lk p.2)
    []

/-- `mapCountry` from `src/lib/mapper.ts`.  Returns the resolved alpha-3
code together with the unmapped original (the source's optional
`unmappedOriginal` field). -/
def mapCountry (country : JSValue) : String × Option String :=
  if falsy country then ("DEU", none)
  else
    let countryStr := jsTrim (toStr country)
    if countryStr = "" then ("DEU", none)
    else
      match getVal countryMapping (jsToLower countryStr) with
      | some code => if code = "" then ("DEU", some countryStr) else (code, none)
      | none => ("DEU", some countryStr)

/-- `createFullName` from `src/lib/mapper.ts`. -/
def createFullName (firstName lastName : JSValue) : String :=
  let first := if falsy firstName then "" else jsTrim (toStr firstName)
  let last := if falsy lastName then "" else jsTrim (toStr lastName)
  jsTrim (first ++ " " ++ last)

/-- Decides whether the first list is an initial segment of the second. -/
def isPreOf : List Char → List Char → Bool
  | [], _ => true
  | _ :: _, [] => false
  | a :: as, b :: bs => a == b && isPreOf as bs

/-- `String.prototype.includes`: the needle occurs contiguously in the
haystack. -/
def containsSub (needle : List Char) : List Char → Bool
  | [] => isPreOf needle []
  | c :: t => isPreOf needle (c :: t) || containsSub needle t

def strIncludes (s sub : String) : Bool := containsSub sub.data s.data

/-- `mapAddressType` from `src/lib/mapper.ts`: case-sensitive substring
checks, "Postfach" before the two major-recipient spellings. -/
def mapAddressType (addressAddition : JSValue) : String :=
  if falsy addressAddition then "HOUSE"
  else
    let additionStr := toStr addressAddition
    if strIncludes additionStr "Postfach" then "POBOX"
    else if strIncludes additionStr "Großempfänger"
        || strIncludes additionStr "Grossempfänger" then "MAJORRECIPIENT"
    else "HOUSE"

/-- `s.split(/\s+/)` on a trimmed string: the maximal whitespace-free
tokens, in order.  `cur` accumulates the current token reversed. -/
def wsTokensAux (cur : List Char) : List Char → List (List Char)
  | [] => if cur.isEmpty then [] else [cur.reverse]
  | c :: t =>
    if isWs c then
      if cur.isEmpty then wsTokensAux [] t else cur.reverse :: wsTokensAux [] t
    else wsTokensAux (c :: cur) t

def wsTokens (l : List Char) : List (List Char) := wsTokensAux [] l

/-- The optional final character of the trailing-number regex:
`[A-Za-z\-\/]`. -/
def isNumSuffix (c : Char) : Bool :=
  ('A' ≤ c && c ≤ 'Z') || ('a' ≤ c && c ≤ 'z') || c == '-' || c == '/'

/-- A token matching the regex `\d+[A-Za-z\-\/]?` in full: a non-empty
digit run, optionally followed by one letter, dash or slash. -/
def numToken (t : List Char) : Bool :=
  (!t.isEmpty && t.all isDigitCh)
    || (2 ≤ t.length && t.dropLast.all isDigitCh && isNumSuffix (t.getLastD ' '))

/-- `parts.join(" ")`. -/
def joinToks (ts : List (List Char)) : String :=
  String.intercalate " " (ts.map (fun t => (⟨t⟩ : String)))

/-- `splitStreetNumber` from `src/lib/mapper.ts`.

The first branch models `s.match(/^(.*\S)\s+(\d+[A-Za-z\-\/]?)$/)` on the
trimmed string `s`.  The group `(\d+[A-Za-z\-\/]?)` contains no
whitespace and is preceded by `\s+`, so it must cover exactly the last
whitespace-separated token, `\s+` must cover exactly the final whitespace
run (because `(.*\S)` ends in a non-whitespace character), and group 1 is
forced to be everything before that final run.  `.` in JavaScript does not
match the line terminators U+000A, U+000D, U+2028, U+2029, so the regex
matches exactly when `s` contains whitespace (at least two tokens, as `s`
is trimmed), its last token matches `\d+[A-Za-z\-\/]?` in full, and the
prefix before the final whitespace run contains no line terminator (its
last character is non-whitespace, hence never a terminator, and all
earlier characters come from `.*`).  The second and third branches split
on `/\s+/` exactly as the source does; the source re-splits for the
first-token check, producing the same token list. -/
def splitStreetNumber (street : JSValue) : String × String :=
  if falsy street then ("", "")
  else
    let s := jsTrim (toStr street)
    if s = "" then ("", "")
    else
      let toks := wsTokens s.data
      let lastTok := toks.getLastD []
      if 2 ≤ toks.length ∧ numToken lastTok = true ∧
          (trimRightL (s.data.take (s.data.length - lastTok.length))).all
            (fun c => !isLineTerm c) = true then
        ((⟨trimRightL (s.data.take (s.data.length - lastTok.length))⟩ : String),
          (⟨lastTok⟩ : String))
      else if 2 ≤ toks.length ∧ lastTok.any isDigitCh = true then
        (joinToks toks.dropLast, (⟨lastTok⟩ : String))
      else if 2 ≤ toks.length ∧ (toks.headD []).any isDigitCh = true then
        (joinToks toks.tail, (⟨(toks.headD [])⟩ : String))
      else (s, "")

/-- The string core of `cleanValue`: trim, then collapse internal
whitespace runs to single spaces. -/
def cleanStr (s : String) : String := ⟨collapseAux false (trimL s.data)⟩

/-- `cleanValue` from `src/lib/mapper.ts`. -/
def cleanValue (value : JSValue) : String :=
  if falsy value then "" else cleanStr (toStr value)

/-- `mapped["key"]`: `undefined` when the key is absent. -/
def getJS (m : RawRow) (k : String) : JSValue := (getVal m k).getD JSValue.undef

/-- `mapped["key"] || ""`. -/
def getOr (m : RawRow) (k : String) : JSValue :=
  let v := getJS m k
  if falsy v then JSValue.str "" else v

/-- The canonical output record (`MappedAddress`).  `REFERENZ` is the JS
number field, which the application only ever sets to non-negative
integers (sequence index + 1, and 0 for the default sender). -/
structure MappedAddress where
  NAME : String
  ZUSATZ : String
  STRASSE : String
  NUMMER : String
  PLZ : String
  STADT : String
  LAND : String
  ADRESS_TYP : String
  REFERENZ : Nat
  LAND_UNMAPPED_ORIGINAL : Option String := none
deriving DecidableEq

/-- `mapRow` from `src/lib/mapper.ts`. -/
def mapRow (row : RawRow) (index : Nat)
    (mapping : Option (List (String × String))) : MappedAddress :=
  let mapped := mapColumns row mapping
  let firstName := getOr mapped "first_name"
  let lastName := getOr mapped "last_name"
  let fullName := createFullName firstName lastName
  let street := getJS mapped "street"
  let sn := splitStreetNumber street
  let addressAddition := getOr mapped "address_addition"
  let addressType := mapAddressType addressAddition
  let countryResult := mapCountry (getJS mapped "country")
  let postalCode := getJS mapped "postal_code"
  { NAME := cleanValue (JSValue.str fullName)
    ZUSATZ := cleanValue addressAddition
    STRASSE := cleanValue (JSValue.str sn.1)
    NUMMER := cleanValue (JSValue.str sn.2)
    PLZ := cleanValue postalCode
    STADT := cleanValue (getOr mapped "city")
    LAND := countryResult.1
    ADRESS_TYP := addressType
    REFERENZ := index + 1
    -- `if (countryResult.unmappedOriginal)` — truthiness guard
    LAND_UNMAPPED_ORIGINAL :=
      match countryResult.2 with
      | some o => if o = "" then none else some o
      | none => none }

/-- Index-decorated list (`rows.map((row, index) => ...)` pairs). -/
def withIdx {α : Type} : Nat → List α → List (Nat × α)
  | _, [] => []
  | n, a :: t => (n, a) :: withIdx (n + 1) t

/-- `mapData` from `src/lib/mapper.ts`. -/
def mapData (rows : List RawRow) (mapping : Option (List (String × String))) :
    List MappedAddress :=
  (withIdx 0 rows).map (fun p => mapRow p.2 p.1 mapping)

/-- The per-field checks of `validateMaxLengths`, in source order:
field name, character count of the stringified value, limit. -/
def limitChecks (row : MappedAddress) : List (String × Nat × Nat) :=
  [("NAME", row.NAME.length, 50),
   ("ZUSATZ", row.ZUSATZ.length, 50),
   ("STRASSE", row.STRASSE.length, 40),
   ("NUMMER", row.NUMMER.length, 7),
   ("PLZ", row.PLZ.length, 9),
   ("STADT", row.STADT.length, 40),
   ("LAND", row.LAND.length, 3),
   ("ADRESS_TYP", row.ADRESS_TYP.length, 99),
   ("REFERENZ", (toString row.REFERENZ).length, 20)]

/-- The warning text for one exceeded per-field limit. -/
def lengthWarn (c : String × Nat × Nat) : String :=
  c.1 ++ (" exceeds max length (" ++ (toString c.2.1 ++ (" > " ++ (toString c.2.2 ++ ")"))))

/-- The text of the unmapped-country warning. -/
def countryWarnStr (o land : String) : String :=
  "LAND could not be mapped from \"" ++ (o ++ ("\", defaulted to " ++ land))

/-- The unmapped-country warning of `validateMaxLengths`
(`if (row.LAND_UNMAPPED_ORIGINAL)` — truthiness guard). -/
def countryWarn (row : MappedAddress) : List String :=
  match row.LAND_UNMAPPED_ORIGINAL with
  | some o => if o = "" then [] else [countryWarnStr o row.LAND]
  | none => []

/-- The composite full-address string of `validateMaxLengths`: the six
fields trimmed, empties dropped, space-joined. -/
def fullAddress (row : MappedAddress) : String :=
  String.intercalate " "
    (([row.NAME, row.ZUSATZ, row.STRASSE, row.NUMMER, row.PLZ, row.STADT].map jsTrim).filter
      (fun s => s ≠ ""))

/-- The composite-length warning text. -/
def fullWarnStr (row : MappedAddress) : String :=
  "Full address exceeds max length (" ++ (toString (fullAddress row).length ++ " > 72)")

/-- `validateMaxLengths` from `src/lib/mapper.ts`: the unmapped-country
warning, then every exceeded per-field limit in source order (every
`maxLen` is non-zero, so the `maxLen &&` guard always passes), then the
composite check. -/
def validateMaxLengths (row : MappedAddress) : List String :=
  countryWarn row
    ++ (((limitChecks row).filter (fun c => c.2.2 < c.2.1)).map lengthWarn
      ++ (if 72 < (fullAddress row).length then [fullWarnStr row] else []))

/-! ## Application component (`src/App.tsx`, shipped inside the component sources) -/

/-- The canonical target field keys (`TargetField["key"]`). -/
inductive TKey : Type
  | salutation | first_name | last_name | street | address_addition
  | postal_code | city | country
deriving DecidableEq

/-- The string form of a target key, as used for object keys in
`buildMapping`. -/
def TKey.name : TKey → String
  | .salutation => "salutation"
  | .first_name => "first_name"
  | .last_name => "last_name"
  | .street => "street"
  | .address_addition => "address_addition"
  | .postal_code => "postal_code"
  | .city => "city"
  | .country => "country"

structure TargetField where
  key : TKey
  label : String
  required : Bool
deriving DecidableEq

/-- `TARGET_FIELDS` from the application component. -/
def TARGET_FIELDS : List TargetField :=
  [⟨.salutation, "Anrede", false⟩,
   ⟨.first_name, "Vorname", true⟩,
   ⟨.last_name, "Nachname", true⟩,
   ⟨.street, "Straße", true⟩,
   ⟨.address_addition, "Adresszusatz", false⟩,
   ⟨.postal_code, "PLZ", true⟩,
   ⟨.city, "Ort", true⟩,
   ⟨.country, "Land", true⟩]

/-- The column-selection state: the present entries of the partial record
`columnSelections` (absent keys simply do not occur in the list). -/
abbrev Selections : Type := List (TKey × String)

/-- The `!selections[f.key]` test of `recalcMapping`: the field has no
source column when the entry is absent or its value is the empty string
(JS falsiness). -/
def selMissing (sel : Selections) (k : TKey) : Bool :=
  match getVal sel k with
  | some s => s == ""
  | none => true

/-- `buildMapping` from the application component: invert the selections
into a source-column → target-key alias table, skipping falsy sources. -/
def buildMapping (sel : Selections) : List (String × String) :=
  sel.foldl (fun m p => if p.2 ≠ "" then setVal m p.2 p.1.name else m) []

/-- The first pass of `buildWarnings`: per-row warnings, recorded only
when non-empty.  The source's `forEach` writes each index at most once and
in increasing order, which is exactly this `filterMap`. -/
def pass1 (rows : List MappedAddress) : List (Nat × List String) :=
  (withIdx 0 rows).filterMap (fun p =>
    let w := validateMaxLengths p.2
    if w.isEmpty then none else some (p.1, w))

/-- One step of building `refIndexMap`: `indices = map.get(ref) ?? [];
indices.push(index); map.set(ref, indices)`. -/
def addRef (m : List (Nat × List Nat)) (r i : Nat) : List (Nat × List Nat) :=
  match getVal m r with
  | some is => m.map (fun p => if p.1 = r then (r, is ++ [i]) else p)
  | none => m ++ [(r, [i])]

/-- The `refIndexMap` of `buildWarnings`: `REFERENZ` value → list of row
indices carrying it, in insertion order. -/
def refMapOf (rows : List MappedAddress) : List (Nat × List Nat) :=
  (withIdx 0 rows).foldl (fun m p => addRef m p.2.REFERENZ p.1) []

def uniqueMsg : String := "REFERENZ must be unique"

/-- `warningsMap[idx] = [...(warningsMap[idx] ?? []), "REFERENZ must be
unique"]`. -/
def addUnique (m : List (Nat × List String)) (idx : Nat) :
    List (Nat × List String) :=
  match getVal m idx with
  | some l => m.map (fun p => if p.1 = idx then (idx, l ++ [uniqueMsg]) else p)
  | none => m ++ [(idx, [uniqueMsg])]

/-- `buildWarnings` from the application component. -/
def buildWarnings (rows : List MappedAddress) : List (Nat × List String) :=
  (refMapOf rows).foldl
    (fun m g => if 1 < g.2.length then g.2.foldl addUnique m else m)
    (pass1 rows)

/-- `handleDeleteRow` from the application component: drop the row at the
given index (the `!prev[rowIndex]` guard fails exactly when the index is
out of bounds, since rows are objects and hence truthy) and reassign
`REFERENZ := idx + 1` over the compacted list. -/
def handleDeleteRow (rows : List MappedAddress) (i : Nat) : List MappedAddress :=
  if (rows.get? i).isSome then
    let filtered := ((withIdx 0 rows).filter (fun p => p.1 ≠ i)).map (fun p => p.2)
    (withIdx 0 filtered).map (fun p => { p.2 with REFERENZ := p.1 + 1 })
  else rows

/-- The state written by one `recalcMapping` call.  `error = none` means
the call did not touch the error state (the empty-data branch);
`some ""` is the cleared error of the success branch. -/
structure RecalcResult where
  mappedData : List MappedAddress
  warnings : List (Nat × List String)
  error : Option String
deriving DecidableEq

/-- `recalcMapping` from the application component. -/
def recalcMapping (data : List RawRow) (selections : Selections) : RecalcResult :=
  if data.isEmpty then ⟨[], [], none⟩
  else
    let missing := TARGET_FIELDS.filter (fun f => f.required && selMissing selections f.key)
    if !missing.isEmpty then
      ⟨[], [],
        some ("Please map required fields: "
          ++ String.intercalate ", " (missing.map (fun f => f.label)))⟩
    else
      let mapped := mapData data (some (buildMapping selections))
      ⟨mapped, buildWarnings mapped, some ""⟩

/-! ## CSV export encoding (`src/components/MappedTable.tsx`) -/

/-- `CP1252_CODEPOINT_TO_BYTE`: the Unicode code points outside
`0x00–0x7F`/`0xA0–0xFF` that Windows-1252 can represent, with their
byte. -/
def CP1252_CODEPOINT_TO_BYTE : List (Nat × Nat) :=
  [(0x20AC, 0x80), (0x201A, 0x82), (0x0192, 0x83), (0x201E, 0x84),
   (0x2026, 0x85), (0x2020, 0x86), (0x2021, 0x87), (0x02C6, 0x88),
   (0x2030, 0x89), (0x0160, 0x8A), (0x2039, 0x8B), (0x0152, 0x8C),
   (0x017D, 0x8E), (0x2018, 0x91), (0x2019, 0x92), (0x201C, 0x93),
   (0x201D, 0x94), (0x2022, 0x95), (0x2013, 0x96), (0x2014, 0x97),
   (0x02DC, 0x98), (0x2122, 0x99), (0x0161, 0x9A), (0x203A, 0x9B),
   (0x0153, 0x9C), (0x017E, 0x9E), (0x0178, 0x9F)]

/-- The per-character case of `toCP1252Bytes`. -/
def encodeChar (c : Char) : Nat :=
  if c.toNat ≤ 0x7F then c.toNat
  else if 0xA0 ≤ c.toNat ∧ c.toNat ≤ 0xFF then c.toNat
  else
    match getVal CP1252_CODEPOINT_TO_BYTE c.toNat with
    | some b => b
    | none => 0x3F

/-- `toCP1252Bytes` from `src/components/MappedTable.tsx`: iterates the
string's code points and emits exactly one byte per code point. -/
def toCP1252Bytes (s : String) : List Nat := s.data.map encodeChar

/-- Modelled from the spec: decoding "with the Windows-1252 codepage" is
not part of the sources (the consumer of the exported CSV performs it).
The standard codepage maps bytes `0x00–0x7F` and `0xA0–0xFF` to their
code-point value and bytes `0x80–0x9F` through the inverse of the table
above (the five unassigned bytes are left at their numeric value; they
are never produced for representable input). -/
def cp1252DecodeByte (b : Nat) : Nat :=
  if b ≤ 0x7F then b
  else if 0xA0 ≤ b then b
  else
    match getVal (CP1252_CODEPOINT_TO_BYTE.map (fun p => (p.2, p.1))) b with
    | some cp => cp
    | none => b

def decodeCP1252 (bytes : List Nat) : String :=
  ⟨bytes.map (fun b => Char.ofNat (cp1252DecodeByte b))⟩

/-- A character all of whose occurrences survive the Windows-1252
round-trip: pass-through ranges or an entry of the fixed table. -/
abbrev cp1252Representable (c : Char) : Prop :=
  c.toNat ≤ 0x7F ∨ (0xA0 ≤ c.toNat ∧ c.toNat ≤ 0xFF)
    ∨ (getVal CP1252_CODEPOINT_TO_BYTE c.toNat).isSome = true

/-! ## Statement helpers -/

/-- A record with its `REFERENZ` zeroed out: the identity of a record
apart from its sequence number (used to state order preservation). -/
def stripRef (r : MappedAddress) : MappedAddress := { r with REFERENZ := 0 }

/-- The output key `mapColumns` assigns to a row key: the canonical
target when the lower-cased key matches a (truthy) alias, the lower-cased
key itself otherwise. -/
def outKeyFor (tbl : List (String × String)) (k : String) : String :=
  match targetFor (normalizeAliases tbl) (jsToLower k) with
  | some t => t
  | none => jsToLower k

/-- The leading space-free segment of a warning string (used to tell the
warning kinds apart: each starts with a space-free field name or marker).
-/
def nameTok (w : String) : List Char := w.data.takeWhile (fun c => !(c == ' '))

/-- Street-splitting rule (a), the source's trailing-number regex: the
trimmed string ends in whitespace followed by a token matching
`\d+[A-Za-z\-\/]?`, and the prefix before that final whitespace run
contains no line terminator (JS `.` does not match line terminators). -/
abbrev streetRuleA (s : String) : Prop :=
  2 ≤ (wsTokens (jsTrim s).data).length
    ∧ numToken ((wsTokens (jsTrim s).data).getLastD []) = true
    ∧ (trimRightL ((jsTrim s).data.take
        ((jsTrim s).data.length - ((wsTokens (jsTrim s).data).getLastD []).length))).all
        (fun c => !isLineTerm c) = true

/-- Street-splitting rule (b): the last whitespace-separated token (of at
least two) contains a digit. -/
abbrev streetRuleB (s : String) : Prop :=
  2 ≤ (wsTokens (jsTrim s).data).length
    ∧ ((wsTokens (jsTrim s).data).getLastD []).any isDigitCh = true

/-- Street-splitting rule (c): the first whitespace-separated token (of at
least two) contains a digit. -/
abbrev streetRuleC (s : String) : Prop :=
  2 ≤ (wsTokens (jsTrim s).data).length
    ∧ ((wsTokens (jsTrim s).data).headD []).any isDigitCh = true

/-- Result of rule (a): everything before the final whitespace run, and
the trailing token. -/
def streetResA (s : String) : String × String :=
  ((⟨trimRightL ((jsTrim s).data.take
      ((jsTrim s).data.length - ((wsTokens (jsTrim s).data).getLastD []).length))⟩ : String),
    (⟨(wsTokens (jsTrim s).data).getLastD []⟩ : String))

/-- Result of rule (b): all but the last token space-joined, and the last
token. -/
def streetResB (s : String) : String × String :=
  (joinToks (wsTokens (jsTrim s).data).dropLast,
    (⟨(wsTokens (jsTrim s).data).getLastD []⟩ : String))

/-- Result of rule (c): all but the first token space-joined as the
street, and the first token as the number. -/
def streetResC (s : String) : String × String :=
  (joinToks (wsTokens (jsTrim s).data).tail,
    (⟨(wsTokens (jsTrim s).data).headD []⟩ : String))

/-! ## Association-list lemmas -/

theorem getVal_map_update_ne {κ α : Type} [DecidableEq κ] (m : List (κ × α)) (k k' : κ) (v : α)
    (h : k' ≠ k) :
    getVal (m.map (fun p => if p.1 = k then (k, v) else p)) k' = getVal m k' := by
  induction m with
  | nil => rfl
  | cons a t ih =>
    obtain ⟨k1, v1⟩ := a
    rw [List.map_cons]
    dsimp only
    by_cases h1 : k1 = k
    · subst h1
      have h2 : ¬k1 = k' := fun hc => h hc.symm
      rw [if_pos rfl]
      simp only [getVal]
      rw [if_neg h2, if_neg h2]
      exact ih
    · rw [if_neg h1]
      simp only [getVal]
      by_cases h2 : k1 = k'
      · rw [if_pos h2, if_pos h2]
      · rw [if_neg h2, if_neg h2]
        exact ih

theorem getVal_map_update_self {κ α : Type} [DecidableEq κ] (m : List (κ × α)) (k : κ) (v : α)
    (h : (getVal m k).isSome) :
    getVal (m.map (fun p => if p.1 = k then (k, v) else p)) k = some v := by
  induction m with
  | nil => simp [getVal] at h
  | cons a t ih =>
    obtain ⟨k1, v1⟩ := a
    rw [List.map_cons]
    dsimp only
    by_cases h1 : k1 = k
    · subst h1
      rw [if_pos rfl]
      simp [getVal]
    · simp only [getVal] at h
      rw [if_neg h1] at h
      rw [if_neg h1]
      simp only [getVal]
      rw [if_neg h1]
      exact ih h

theorem getVal_append {κ α : Type} [DecidableEq κ] (m l : List (κ × α)) (k : κ) :
    getVal (m ++ l) k =
      match getVal m k with
      | some v => some v
      | none => getVal l k := by
  induction m with
  | nil => rfl
  | cons a t ih =>
    obtain ⟨k1, v1⟩ := a
    by_cases h1 : k1 = k <;> simp [getVal, h1, ih]

theorem getVal_setVal {κ α : Type} [DecidableEq κ] (m : List (κ × α)) (k k' : κ) (v : α) :
    getVal (setVal m k v) k' = if k' = k then some v else getVal m k' := by
  cases hgv : getVal m k with
  | some w =>
    have hs : (getVal m k).isSome := by rw [hgv]; rfl
    by_cases hk : k' = k
    · subst hk; simp [setVal, hs, getVal_map_update_self m k' v hs]
    · simp [setVal, hs, getVal_map_update_ne m k k' v hk, hk]
  | none =>
    have hs : (getVal m k).isSome = false := by rw [hgv]; rfl
    rw [setVal, hs]
    simp only [Bool.false_eq_true, if_false]
    rw [getVal_append]
    by_cases hk : k' = k
    · subst hk; simp [hgv, getVal]
    · cases hgv' : getVal m k' <;> simp [getVal, hk, Ne.symm hk, hgv']

theorem getVal_eq_none_iff {κ α : Type} [DecidableEq κ] (m : List (κ × α)) (k : κ) :
    getVal m k = none ↔ k ∉ m.map Prod.fst := by
  induction m with
  | nil => simp [getVal]
  | cons a t ih =>
    obtain ⟨k1, v1⟩ := a
    simp only [getVal, List.map_cons, List.mem_cons]
    by_cases h1 : k1 = k
    · subst h1
      simp
    · rw [if_neg h1, ih]
      constructor
      · intro hk hc
        rcases hc with hc | hc
        · exact h1 hc.symm
        · exact hk hc
      · intro hk hc
        exact hk (Or.inr hc)

theorem getVal_mem {κ α : Type} [DecidableEq κ] (m : List (κ × α)) (k : κ) (v : α)
    (h : getVal m k = some v) : (k, v) ∈ m := by
  induction m with
  | nil => simp [getVal] at h
  | cons a t ih =>
    obtain ⟨k1, v1⟩ := a
    by_cases h1 : k1 = k
    · subst h1
      rw [getVal, if_pos rfl] at h
      injection h with hv
      subst hv
      exact List.mem_cons_self _ _
    · rw [getVal, if_neg h1] at h
      exact List.mem_cons_of_mem _ (ih h)

theorem mem_getVal_of_nodup {κ α : Type} [DecidableEq κ] (m : List (κ × α)) (k : κ) (v : α)
    (hn : (m.map Prod.fst).Nodup) (h : (k, v) ∈ m) : getVal m k = some v := by
  induction m with
  | nil => simp at h
  | cons a t ih =>
    obtain ⟨k1, v1⟩ := a
    simp only [List.map_cons, List.nodup_cons] at hn
    rcases List.mem_cons.mp h with h | h
    · injection h with h1 h2; subst h1; subst h2
      rw [getVal, if_pos rfl]
    · have hne : k1 ≠ k := by
        intro he; subst he
        exact hn.1 (List.mem_map.mpr ⟨(k1, v), h, rfl⟩)
      rw [getVal, if_neg hne]
      exact ih hn.2 h

theorem map_fst_setVal {κ α : Type} [DecidableEq κ] (m : List (κ × α)) (k : κ) (v : α)
    (h : getVal m k = none) :
    (setVal m k v).map Prod.fst = m.map Prod.fst ++ [k] := by
  have hs : (getVal m k).isSome = false := by rw [h]; rfl
  simp [setVal, hs]

/-- Lookup after an insertion fold: when the assigned keys are pairwise
distinct (and fresh over the initial accumulator), every inserted binding
is retrievable and prior bindings survive. -/
theorem foldl_setVal_lookup (f : String → String) (row : RawRow) :
    ∀ m : RawRow,
      ((m.map Prod.fst) ++ row.map (fun p => f p.1)).Nodup →
      ((∀ k v, (k, v) ∈ row →
          getVal (row.foldl (fun acc p => setVal acc (f p.1) p.2) m) (f k) = some v) ∧
        (∀ k0 w, getVal m k0 = some w →
          getVal (row.foldl (fun acc p => setVal acc (f p.1) p.2) m) k0 = some w)) := by
  induction row with
  | nil => exact fun m _ => ⟨fun k v h => by simp at h, fun k0 w h => h⟩
  | cons p t ih =>
    intro m hn
    obtain ⟨k1, v1⟩ := p
    rw [List.map_cons] at hn
    have hfresh : f k1 ∉ m.map Prod.fst := by
      rcases (List.nodup_append).mp hn with ⟨-, -, hd⟩
      intro hc
      exact hd hc (List.mem_cons_self _ _)
    have hnone : getVal m (f k1) = none := (getVal_eq_none_iff m (f k1)).mpr hfresh
    have hkeys : (setVal m (f k1) v1).map Prod.fst = m.map Prod.fst ++ [f k1] :=
      map_fst_setVal m (f k1) v1 hnone
    have hn' : (((setVal m (f k1) v1).map Prod.fst) ++ t.map (fun p => f p.1)).Nodup := by
      rw [hkeys, List.append_assoc, List.singleton_append]
      exact hn
    have ihm := ih (setVal m (f k1) v1) hn'
    constructor
    · intro k v hkv
      rcases List.mem_cons.mp hkv with hkv | hkv

      · injection hkv with h1 h2
        subst h1
        subst h2
        exact ihm.2 (f k) v (by rw [getVal_setVal, if_pos rfl])
      · exact ihm.1 k v hkv
    · intro k0 w hw
      have hk0 : k0 ∈ m.map Prod.fst :=
        List.mem_map.mpr ⟨(k0, w), getVal_mem m k0 w hw, rfl⟩
      have hne : k0 ≠ f k1 := fun he => hfresh (he ▸ hk0)
      exact ihm.2 k0 w (by rw [getVal_setVal, if_neg hne]; exact hw)

/-- `mapColumns` is the insertion fold over the per-key output key. -/
theorem mapColumns_eq_foldl (row : RawRow) (cm : Option (List (String × String))) :
    mapColumns row cm =
      row.foldl
        (fun acc p => setVal acc (outKeyFor (cm.getD DEFAULT_COLUMN_MAPPING) p.1) p.2) [] := by
  show row.foldl _ [] = _
  congr 1
  funext acc p
  show (match targetFor (normalizeAliases (cm.getD DEFAULT_COLUMN_MAPPING)) (jsToLower p.1) with
      | some t => setVal acc t p.2
      | none => setVal acc (jsToLower p.1) p.2) = _
  rw [outKeyFor]
  cases targetFor (normalizeAliases (cm.getD DEFAULT_COLUMN_MAPPING)) (jsToLower p.1) <;> rfl

/-! ## Claim theorems -/

/-- C1: the end-to-end example row maps, with the default alias table at
sequence index 0, to exactly the expected record (no unmapped-country
diagnostic), and validating that record yields no warnings. -/
theorem c1_end_to_end :
    mapRow
        [("Vorname", JSValue.str "Max"), ("Name", JSValue.str "Mustermann"),
         ("Adresse1", JSValue.str "Blumenstraße 5"), ("PLZ", JSValue.str "10115"),
         ("Ort", JSValue.str "Berlin"), ("Land", JSValue.str "Deutschland")] 0 none =
      { NAME := "Max Mustermann", ZUSATZ := "", STRASSE := "Blumenstraße",
        NUMMER := "5", PLZ := "10115", STADT := "Berlin", LAND := "DEU",
        ADRESS_TYP := "HOUSE", REFERENZ := 1, LAND_UNMAPPED_ORIGINAL := none } ∧
    validateMaxLengths
      { NAME := "Max Mustermann", ZUSATZ := "", STRASSE := "Blumenstraße",
        NUMMER := "5", PLZ := "10115", STADT := "Berlin", LAND := "DEU",
        ADRESS_TYP := "HOUSE", REFERENZ := 1, LAND_UNMAPPED_ORIGINAL := none } = [] := by
  decide

/-- C5 counterexample: two row keys that lower-case to the same output key
("A" and "a", with an empty caller-supplied alias table) overwrite each
other, so the first key's value is dropped instead of being stored under
its lower-cased form. -/
theorem c5_counterexample :
    mapColumns [("A", JSValue.str "x"), ("a", JSValue.str "y")] (some []) =
        [("a", JSValue.str "y")] ∧
      getVal (mapColumns [("A", JSValue.str "x"), ("a", JSValue.str "y")] (some [])) "a" ≠
        some (JSValue.str "x") := by
  decide

/-- C5 (amended): provided the output keys assigned to the row's keys
(canonical target for a truthy alias match, lower-cased key otherwise)
are pairwise distinct, every row value is stored under its output key —
nothing is dropped — and a caller-supplied alias table fully replaces the
default. -/
theorem c5_mapColumns_amended :
    ∀ (row : RawRow) (customMapping : Option (List (String × String))),
      (row.map (fun p => outKeyFor (customMapping.getD DEFAULT_COLUMN_MAPPING) p.1)).Nodup →
      ∀ k v, (k, v) ∈ row →
        getVal (mapColumns row customMapping)
            (outKeyFor (customMapping.getD DEFAULT_COLUMN_MAPPING) k) = some v := by
  intro row cm hn k v hkv
  rw [mapColumns_eq_foldl]
  exact (foldl_setVal_lookup (outKeyFor (cm.getD DEFAULT_COLUMN_MAPPING)) row []
    (by simpa using hn)).1 k v hkv

/-- C5 witness: the amended theorem applied to a concrete two-column row
under the default alias table. -/
theorem c5_witness :
    (([("Vorname", JSValue.str "Max"), ("Extra", JSValue.str "e")] : RawRow).map
        (fun p => outKeyFor ((none : Option (List (String × String))).getD
          DEFAULT_COLUMN_MAPPING) p.1)).Nodup ∧
      getVal (mapColumns [("Vorname", JSValue.str "Max"), ("Extra", JSValue.str "e")] none)
          (outKeyFor ((none : Option (List (String × String))).getD DEFAULT_COLUMN_MAPPING)
            "Vorname") = some (JSValue.str "Max") :=
  ⟨by decide,
    c5_mapColumns_amended [("Vorname", JSValue.str "Max"), ("Extra", JSValue.str "e")] none
      (by decide) "Vorname" (JSValue.str "Max") (by decide)⟩

/-- C4: country resolution policy.  Absent or effectively-empty input
resolves to `DEU` with no unmapped original; a registered key (any case)
resolves to its alpha-3 code with no unmapped original; any other
non-empty input resolves to `DEU` with the trimmed original recorded.
Each of a country entry's four keys is registered, and the three concrete
examples behave as claimed. -/
theorem c4_country_resolution :
    (∀ v : JSValue, falsy v = true → mapCountry v = ("DEU", none)) ∧
    (∀ v : JSValue, jsTrim (toStr v) = "" → mapCountry v = ("DEU", none)) ∧
    (∀ (v : JSValue) (code : String), falsy v = false → jsTrim (toStr v) ≠ "" →
      getVal countryMapping (jsToLower (jsTrim (toStr v))) = some code →
      mapCountry v = (code, none)) ∧
    (∀ v : JSValue, falsy v = false → jsTrim (toStr v) ≠ "" →
      getVal countryMapping (jsToLower (jsTrim (toStr v))) = none →
      mapCountry v = ("DEU", some (jsTrim (toStr v)))) ∧
    (∀ c ∈ countriesData,
      getVal countryMapping (jsToLower c.englishShortName) = some c.alpha3Code ∧
      getVal countryMapping (jsToLower c.germanShortName) = some c.alpha3Code ∧
      getVal countryMapping (jsToLower c.alpha2Code) = some c.alpha3Code ∧
      getVal countryMapping (jsToLower c.alpha3Code) = some c.alpha3Code) ∧
    mapCountry (JSValue.str "") = ("DEU", none) ∧
    mapCountry JSValue.undef = ("DEU", none) ∧
    mapCountry (JSValue.str "Atlantis") = ("DEU", some "Atlantis") := by
  have hvals : ∀ p ∈ countryMapping, p.2 ≠ "" := by decide
  refine ⟨?_, ?_, ?_, ?_, by decide, by decide, by decide, by decide⟩
  · intro v h
    simp [mapCountry, h]
  · intro v h
    by_cases hf : falsy v
    · simp [mapCountry, hf]
    · simp [mapCountry, hf, h]
  · intro v code hf ht hget
    have hcode : code ≠ "" := hvals _ (getVal_mem _ _ _ hget)
    simp [mapCountry, hf, ht, hget, hcode]
  · intro v hf ht hnone
    simp [mapCountry, hf, ht, hnone]

/-- C4 witness: the theorem applied to the unresolvable input
"Atlantis". -/
theorem c4_witness :
    falsy (JSValue.str "Atlantis") = false ∧
    jsTrim (toStr (JSValue.str "Atlantis")) ≠ "" ∧
    getVal countryMapping (jsToLower (jsTrim (toStr (JSValue.str "Atlantis")))) = none ∧
    mapCountry (JSValue.str "Atlantis") =
      ("DEU", some (jsTrim (toStr (JSValue.str "Atlantis")))) :=
  ⟨by decide, by decide, by decide,
    c4_country_resolution.2.2.2.1 (JSValue.str "Atlantis") (by decide) (by decide) (by decide)⟩

/-- C7: with a non-empty raw-row batch and at least one required canonical
field without a source column, re-mapping produces no records and no
warnings, and surfaces a single batch-level error listing every missing
required field. -/
theorem c7_missing_required_blocks :
    ∀ (data : List RawRow) (selections : Selections),
      data ≠ [] →
      (∃ f ∈ TARGET_FIELDS, f.required = true ∧ selMissing selections f.key = true) →
      recalcMapping data selections =
        { mappedData := [], warnings := [],
          error := some ("Please map required fields: "
            ++ String.intercalate ", "
              ((TARGET_FIELDS.filter
                  (fun f => f.required && selMissing selections f.key)).map
                (fun f => f.label))) } := by
  intro data sel hne hex
  obtain ⟨f, hf, hreq, hmiss⟩ := hex
  have hde : data.isEmpty = false := by
    cases data with
    | nil => exact absurd rfl hne
    | cons a t => rfl
  have hfin : f ∈ TARGET_FIELDS.filter (fun f => f.required && selMissing sel f.key) :=
    List.mem_filter.mpr ⟨hf, by rw [hreq, hmiss]; rfl⟩
  have hmm : (TARGET_FIELDS.filter
      (fun f => f.required && selMissing sel f.key)).isEmpty = false := by
    cases hh : TARGET_FIELDS.filter (fun f => f.required && selMissing sel f.key) with
    | nil => rw [hh] at hfin; simp at hfin
    | cons a t => rfl
  simp [recalcMapping, hde, hmm]

/-- C7 witness: a one-row batch with no selections at all. -/
theorem c7_witness :
    ([([] : RawRow)] : List RawRow) ≠ [] ∧
    (∃ f ∈ TARGET_FIELDS, f.required = true ∧ selMissing [] f.key = true) ∧
    recalcMapping [([] : RawRow)] [] =
      { mappedData := [], warnings := [],
        error := some ("Please map required fields: "
          ++ String.intercalate ", "
            ((TARGET_FIELDS.filter (fun f => f.required && selMissing [] f.key)).map
              (fun f => f.label))) } :=
  ⟨by decide, by decide, c7_missing_required_blocks [[]] [] (by decide) (by decide)⟩

/-- C8: for a string whose characters are all Windows-1252 representable,
encoding with `toCP1252Bytes` and decoding with the Windows-1252 codepage
recovers the string exactly. -/
theorem c8_cp1252_roundTrip :
    ∀ s : String, (∀ c ∈ s.data, cp1252Representable c) →
      decodeCP1252 (toCP1252Bytes s) = s := by
  have htbl : ∀ p ∈ CP1252_CODEPOINT_TO_BYTE,
      ¬p.1 ≤ 0x7F ∧ ¬(0xA0 ≤ p.1 ∧ p.1 ≤ 0xFF) ∧ ¬p.2 ≤ 0x7F ∧ ¬0xA0 ≤ p.2 ∧
        getVal (CP1252_CODEPOINT_TO_BYTE.map (fun p => (p.2, p.1))) p.2 = some p.1 := by
    decide
  intro s hs
  have hchar : ∀ c ∈ s.data, Char.ofNat (cp1252DecodeByte (encodeChar c)) = c := by
    intro c hc
    rcases hs c hc with h1 | h2 | h3
    · have he : cp1252DecodeByte (encodeChar c) = c.toNat := by
        simp [encodeChar, cp1252DecodeByte, h1]
      rw [he, Char.ofNat_toNat]
    · have hn1 : ¬c.toNat ≤ 0x7F := by omega
      have he : encodeChar c = c.toNat := by
        simp [encodeChar, hn1, h2]
      have hd : cp1252DecodeByte c.toNat = c.toNat := by
        have : ¬c.toNat ≤ 0x7F := hn1
        simp [cp1252DecodeByte, this, h2.1]
      rw [he, hd, Char.ofNat_toNat]
    · obtain ⟨b, hb⟩ := Option.isSome_iff_exists.mp h3
      have hmem := getVal_mem _ _ _ hb
      obtain ⟨hp1, hp2, hp3, hp4, hp5⟩ := htbl _ hmem
      have he : encodeChar c = b := by
        simp [encodeChar, hp1, hp2, hb]
      have hd : cp1252DecodeByte b = c.toNat := by
        simp [cp1252DecodeByte, hp3, hp4, hp5]
      rw [he, hd, Char.ofNat_toNat]
  cases s with
  | mk data =>
    show decodeCP1252 (toCP1252Bytes ⟨data⟩) = ⟨data⟩
    have hchar' : ∀ c ∈ data,
        ((fun b => Char.ofNat (cp1252DecodeByte b)) ∘ encodeChar) c = id c :=
      fun c hcm => hchar c hcm
    simp only [decodeCP1252, toCP1252Bytes, List.map_map]
    congr 1
    rw [List.map_congr_left hchar', List.map_id]

/-- C8 witness: the round-trip on a string containing ä, ö, ü, ß, € and a
double quote. -/
theorem c8_witness :
    (∀ c ∈ ("äöüß€\"" : String).data, cp1252Representable c) ∧
    decodeCP1252 (toCP1252Bytes "äöüß€\"") = "äöüß€\"" :=
  ⟨by decide, c8_cp1252_roundTrip "äöüß€\"" (by decide)⟩

/-- `splitStreetNumber` on a string input is exactly the ordered
four-rule cascade over the trimmed string (the falsy/empty guards of the
source coincide with rule (d) on effectively-empty input). -/
theorem splitStreetNumber_eq_rules (s : String) :
    splitStreetNumber (JSValue.str s) =
      (if streetRuleA s then streetResA s
       else if streetRuleB s then streetResB s
       else if streetRuleC s then streetResC s
       else (jsTrim s, "")) := by
  by_cases hemp : jsTrim s = ""
  · have htoks : wsTokens (jsTrim s).data = [] := by rw [hemp]; rfl
    have hnA : ¬streetRuleA s := by simp [streetRuleA, htoks]
    have hnB : ¬streetRuleB s := by simp [streetRuleB, htoks]
    have hnC : ¬streetRuleC s := by simp [streetRuleC, htoks]
    rw [if_neg hnA, if_neg hnB, if_neg hnC, hemp]
    by_cases hs0 : s = ""
    · subst hs0; decide
    · have hfal : falsy (JSValue.str s) = false := by simp [falsy, hs0]
      simp [splitStreetNumber, toStr, hfal, hemp]
  · have hs0 : s ≠ "" := fun h => hemp (by rw [h]; rfl)
    have hfal : falsy (JSValue.str s) = false := by simp [falsy, hs0]
    simp only [splitStreetNumber, toStr, hfal, Bool.false_eq_true, if_false,
      if_neg hemp]
    rfl

/-- C2 counterexample: the trimmed input "Foo\nBar 12" does end in
whitespace followed by a digit token, so rule (a) as literally worded
would return ("Foo\nBar", "12") — but the source's regex `(.*\S)` cannot
cover the newline (JS `.` excludes line terminators), so the code falls
through to the last-token split and returns ("Foo Bar", "12"). -/
theorem c2_counterexample :
    (2 ≤ (wsTokens (jsTrim "Foo\nBar 12").data).length ∧
      numToken ((wsTokens (jsTrim "Foo\nBar 12").data).getLastD []) = true) ∧
    splitStreetNumber (JSValue.str "Foo\nBar 12") = ("Foo Bar", "12") ∧
    splitStreetNumber (JSValue.str "Foo\nBar 12") ≠ ("Foo\nBar", "12") := by
  decide

/-- C2 (amended): `splitStreetNumber` applies exactly one of four ordered
rules, first match wins: (a) a trailing `\d+[A-Za-z\-\/]?` token after
whitespace, provided the prefix before that final whitespace run contains
no line terminator (JS `.` in the source's regex does not match
U+000A/U+000D/U+2028/U+2029); (b) otherwise a last token (of at least
two — "whitespace-separated" presupposes a split) containing a digit;
(c) otherwise a first token containing a digit; (d) otherwise the whole
(trimmed) string with an empty number.  The three concrete examples
behave as claimed. -/
theorem c2_splitStreetNumber_rules :
    (∀ s : String,
      (streetRuleA s → splitStreetNumber (JSValue.str s) = streetResA s) ∧
      (¬streetRuleA s → streetRuleB s →
        splitStreetNumber (JSValue.str s) = streetResB s) ∧
      (¬streetRuleA s → ¬streetRuleB s → streetRuleC s →
        splitStreetNumber (JSValue.str s) = streetResC s) ∧
      (¬streetRuleA s → ¬streetRuleB s → ¬streetRuleC s →
        splitStreetNumber (JSValue.str s) = (jsTrim s, ""))) ∧
    splitStreetNumber (JSValue.str "Musterstraße 12a") = ("Musterstraße", "12a") ∧
    splitStreetNumber (JSValue.str "12 Main Street") = ("Main Street", "12") ∧
    splitStreetNumber (JSValue.str "Hauptweg") = ("Hauptweg", "") := by
  refine ⟨?_, by decide, by decide, by decide⟩
  intro s
  refine ⟨fun hA => ?_, fun hA hB => ?_, fun hA hB hC => ?_, fun hA hB hC => ?_⟩ <;>
    rw [splitStreetNumber_eq_rules s]
  · rw [if_pos hA]
  · rw [if_neg hA, if_pos hB]
  · rw [if_neg hA, if_neg hB, if_pos hC]
  · rw [if_neg hA, if_neg hB, if_neg hC]

/-- C2 witness: rule (a) fires on "Musterstraße 12a". -/
theorem c2_witness :
    streetRuleA "Musterstraße 12a" ∧
    splitStreetNumber (JSValue.str "Musterstraße 12a") = streetResA "Musterstraße 12a" :=
  ⟨by decide, (c2_splitStreetNumber_rules.1 "Musterstraße 12a").1 (by decide)⟩

/-! ## Warning-string discrimination lemmas -/

theorem str_ext {s t : String} (h : s.data = t.data) : s = t := by
  cases s; cases t; cases h; rfl

theorem takeWhile_append_all (p : Char → Bool) (l1 l2 : List Char) :
    List.takeWhile p (l1 ++ l2) =
      if l1.all p then l1 ++ List.takeWhile p l2 else List.takeWhile p l1 := by
  induction l1 with
  | nil => simp
  | cons a t ih =>
    by_cases hp : p a
    · by_cases ht : t.all p <;> simp [hp, ht, ih]
    · simp [hp]

theorem append_ne_append (p x q y : String) (i : Nat)
    (hip : i < p.data.length) (hiq : i < q.data.length)
    (hne : p.data[i]? ≠ q.data[i]?) : p ++ x ≠ q ++ y := by
  intro h
  have hd : p.data ++ x.data = q.data ++ y.data := by
    rw [← String.data_append, ← String.data_append, h]
  have h1 : (p.data ++ x.data)[i]? = p.data[i]? := List.getElem?_append_left hip
  have h2 : (q.data ++ y.data)[i]? = q.data[i]? := List.getElem?_append_left hiq
  rw [hd] at h1
  exact hne (h1.symm.trans h2)

theorem mem_countryWarn (row : MappedAddress) (w : String) (h : w ∈ countryWarn row) :
    ∃ o, w = countryWarnStr o row.LAND := by
  cases hl : row.LAND_UNMAPPED_ORIGINAL with
  | none => simp [countryWarn, hl] at h
  | some o =>
    by_cases ho : o = ""
    · simp [countryWarn, hl, ho] at h
    · simp [countryWarn, hl, ho] at h
      exact ⟨o, h⟩

theorem nameTok_concat (n rest : String)
    (hn : n.data.all (fun c => !(c == ' ')) = true)
    (hr : List.takeWhile (fun c => !(c == ' ')) rest.data = []) :
    nameTok (n ++ rest) = n.data := by
  rw [nameTok, String.data_append, takeWhile_append_all, if_pos hn, hr, List.append_nil]

theorem nameTok_lengthWarn (c : String × Nat × Nat)
    (hc : c.1.data.all (fun ch => !(ch == ' ')) = true) :
    nameTok (lengthWarn c) = c.1.data := by
  rw [lengthWarn]
  apply nameTok_concat _ _ hc
  rw [String.data_append]
  rw [show (" exceeds max length (" : String).data
      = ' ' :: ("exceeds max length (" : String).data from rfl]
  simp

theorem nameTok_countryWarnStr (o land : String) :
    nameTok (countryWarnStr o land) = ("LAND" : String).data := by
  rw [countryWarnStr, nameTok, String.data_append, takeWhile_append_all,
    if_neg (by decide :
      ¬(("LAND could not be mapped from \"" : String).data.all
          (fun c => !(c == ' ')) = true))]
  decide

theorem nameTok_fullWarnStr (row : MappedAddress) :
    nameTok (fullWarnStr row) = ("Full" : String).data := by
  rw [fullWarnStr, nameTok, String.data_append, takeWhile_append_all,
    if_neg (by decide :
      ¬(("Full address exceeds max length (" : String).data.all
          (fun c => !(c == ' ')) = true))]
  decide

theorem mem_limitChecks_names (row : MappedAddress) (c : String × Nat × Nat)
    (hc : c ∈ limitChecks row) :
    c.1 = "NAME" ∨ c.1 = "ZUSATZ" ∨ c.1 = "STRASSE" ∨ c.1 = "NUMMER" ∨ c.1 = "PLZ" ∨
      c.1 = "STADT" ∨ c.1 = "LAND" ∨ c.1 = "ADRESS_TYP" ∨ c.1 = "REFERENZ" := by
  simp only [limitChecks, List.mem_cons, List.not_mem_nil, or_false] at hc
  rcases hc with rfl | rfl | rfl | rfl | rfl | rfl | rfl | rfl | rfl <;> simp

theorem limitChecks_eq_of_name (row : MappedAddress) {c c' : String × Nat × Nat}
    (hc : c ∈ limitChecks row) (hc' : c' ∈ limitChecks row) (h : c.1 = c'.1) : c = c' := by
  simp only [limitChecks, List.mem_cons, List.not_mem_nil, or_false] at hc hc'
  rcases hc with rfl | rfl | rfl | rfl | rfl | rfl | rfl | rfl | rfl <;>
    rcases hc' with rfl | rfl | rfl | rfl | rfl | rfl | rfl | rfl | rfl <;>
      first
        | rfl
        | simp at h

theorem mem_validateMaxLengths (row : MappedAddress) (w : String) :
    w ∈ validateMaxLengths row ↔
      w ∈ countryWarn row ∨
      (∃ c, (c ∈ limitChecks row ∧ c.2.2 < c.2.1) ∧ lengthWarn c = w) ∨
      (72 < (fullAddress row).length ∧ w = fullWarnStr row) := by
  by_cases hfull : 72 < (fullAddress row).length <;>
    simp [validateMaxLengths, hfull, List.mem_append, List.mem_map, List.mem_filter,
      and_assoc]

/-- C3: the validator reports each per-field length warning exactly when
the field's stringified character count exceeds its limit, and the
composite full-address warning exactly when the joined length exceeds 72;
all violated checks are reported independently (membership in the result
list, field by field). -/
theorem c3_validator_exact :
    ∀ row : MappedAddress,
      (∀ c ∈ limitChecks row,
        (lengthWarn c ∈ validateMaxLengths row ↔ c.2.2 < c.2.1)) ∧
      (fullWarnStr row ∈ validateMaxLengths row ↔ 72 < (fullAddress row).length) := by
  intro row
  have hnosp : ∀ c ∈ limitChecks row, c.1.data.all (fun ch => !(ch == ' ')) = true := by
    intro c hc
    rcases mem_limitChecks_names row c hc with h | h | h | h | h | h | h | h | h <;>
      rw [h] <;> decide
  constructor
  · intro c hc
    constructor
    · intro hwmem
      rcases (mem_validateMaxLengths row _).mp hwmem with
        hcw | ⟨c', ⟨hc', hcond'⟩, heq⟩ | ⟨hcond, heq⟩
      · obtain ⟨o, ho⟩ := mem_countryWarn row _ hcw
        have h1 : c.1.data = ("LAND" : String).data := by
          rw [← nameTok_lengthWarn c (hnosp c hc), ho, nameTok_countryWarnStr]
        have hLt : ("LAND", row.LAND.length, 3) ∈ limitChecks row := by
          simp [limitChecks]
        have hceq : c = ("LAND", row.LAND.length, 3) :=
          limitChecks_eq_of_name row hc hLt (str_ext h1)
        rw [hceq] at ho
        have hre : lengthWarn ("LAND", row.LAND.length, 3) =
            "LAND exceeds max length (" ++
              (toString row.LAND.length ++ (" > " ++ (toString (3 : Nat) ++ ")"))) := by
          rw [lengthWarn, ← String.append_assoc]
          rfl
        rw [hre, countryWarnStr] at ho
        exact absurd ho (append_ne_append _ _ _ _ 5 (by decide) (by decide) (by decide))
      · have h1 : c'.1.data = c.1.data := by
          rw [← nameTok_lengthWarn c' (hnosp c' hc'), heq, nameTok_lengthWarn c (hnosp c hc)]
        have hceq : c' = c := limitChecks_eq_of_name row hc' hc (str_ext h1)
        rw [hceq] at hcond'
        exact hcond'
      · have h1 : c.1.data = ("Full" : String).data := by
          rw [← nameTok_lengthWarn c (hnosp c hc), heq, nameTok_fullWarnStr]
        rcases mem_limitChecks_names row c hc with h | h | h | h | h | h | h | h | h <;>
          rw [h] at h1 <;> exact absurd h1 (by decide)
    · intro hcond
      exact (mem_validateMaxLengths row _).mpr (Or.inr (Or.inl ⟨c, ⟨hc, hcond⟩, rfl⟩))
  · constructor
    · intro hwmem
      rcases (mem_validateMaxLengths row _).mp hwmem with
        hcw | ⟨c', ⟨hc', hcond'⟩, heq⟩ | ⟨hcond, heq⟩
      · obtain ⟨o, ho⟩ := mem_countryWarn row _ hcw
        have h1 : ("Full" : String).data = ("LAND" : String).data := by
          rw [← nameTok_fullWarnStr row, ho, nameTok_countryWarnStr]
        exact absurd h1 (by decide)
      · have h1 : c'.1.data = ("Full" : String).data := by
          rw [← nameTok_lengthWarn c' (hnosp c' hc'), heq, nameTok_fullWarnStr]
        rcases mem_limitChecks_names row c' hc' with h | h | h | h | h | h | h | h | h <;>
          rw [h] at h1 <;> exact absurd h1 (by decide)
      · exact hcond
    · intro h
      exact (mem_validateMaxLengths row _).mpr (Or.inr (Or.inr ⟨h, rfl⟩))

/-- C3 witness: a record whose NAME has 51 characters receives exactly the
NAME length warning. -/
theorem c3_witness :
    (("NAME", ("aaaaaaaaaaaaaaaaaaaaaaaaaaaaaaaaaaaaaaaaaaaaaaaaaaa" : String).length, 50) ∈
        limitChecks
          { NAME := "aaaaaaaaaaaaaaaaaaaaaaaaaaaaaaaaaaaaaaaaaaaaaaaaaaa", ZUSATZ := "", STRASSE := "", NUMMER := "", PLZ := "",
            STADT := "", LAND := "DEU", ADRESS_TYP := "HOUSE", REFERENZ := 1 }) ∧
      50 < ("aaaaaaaaaaaaaaaaaaaaaaaaaaaaaaaaaaaaaaaaaaaaaaaaaaa" : String).length ∧
      lengthWarn ("NAME", ("aaaaaaaaaaaaaaaaaaaaaaaaaaaaaaaaaaaaaaaaaaaaaaaaaaa" : String).length, 50) ∈
        validateMaxLengths
          { NAME := "aaaaaaaaaaaaaaaaaaaaaaaaaaaaaaaaaaaaaaaaaaaaaaaaaaa", ZUSATZ := "", STRASSE := "", NUMMER := "", PLZ := "",
            STADT := "", LAND := "DEU", ADRESS_TYP := "HOUSE", REFERENZ := 1 } :=
  ⟨by decide, by decide,
    ((c3_validator_exact
          { NAME := "aaaaaaaaaaaaaaaaaaaaaaaaaaaaaaaaaaaaaaaaaaaaaaaaaaa", ZUSATZ := "", STRASSE := "", NUMMER := "", PLZ := "",
            STADT := "", LAND := "DEU", ADRESS_TYP := "HOUSE", REFERENZ := 1 }).1
        ("NAME", ("aaaaaaaaaaaaaaaaaaaaaaaaaaaaaaaaaaaaaaaaaaaaaaaaaaa" : String).length, 50) (by decide)).mpr (by decide)⟩

/-! ## Whitespace-normalization lemmas -/

theorem head_dropWhile_not (p : Char → Bool) (l : List Char) :
    ∀ c, (l.dropWhile p).head? = some c → p c = false := by
  induction l with
  | nil => intro c h; simp at h
  | cons a t ih =>
    intro c h
    rw [List.dropWhile_cons] at h
    by_cases hp : p a
    · rw [if_pos hp] at h
      exact ih c h
    · rw [if_neg hp] at h
      injection h with h
      simp only [Bool.not_eq_true] at hp
      rw [← h]
      exact hp

theorem dropWhile_eq_self_of_head (p : Char → Bool) (l : List Char)
    (h : ∀ c, l.head? = some c → p c = false) : l.dropWhile p = l := by
  cases l with
  | nil => rfl
  | cons a t =>
    have := h a rfl
    simp [List.dropWhile_cons, this]

theorem trimRight_eq_self_of_getLast (l : List Char)
    (h : ∀ c, l.getLast? = some c → isWs c = false) : trimRightL l = l := by
  rw [trimRightL,
    dropWhile_eq_self_of_head isWs l.reverse
      (fun c hc => h c (by rwa [List.head?_reverse] at hc)),
    List.reverse_reverse]

theorem getLast_trimL (s : List Char) :
    ∀ c, (trimL s).getLast? = some c → isWs c = false := by
  intro c hc
  rw [trimL, trimRightL, List.getLast?_reverse] at hc
  exact head_dropWhile_not isWs _ c hc

theorem head_trimL (s : List Char) :
    ∀ c, (trimL s).head? = some c → isWs c = false := by
  intro c hc
  rw [trimL, trimRightL] at hc
  have hx2 : s.dropWhile isWs =
      ((s.dropWhile isWs).reverse.dropWhile isWs).reverse
        ++ ((s.dropWhile isWs).reverse.takeWhile isWs).reverse := by
    conv_lhs =>
      rw [← List.reverse_reverse (s.dropWhile isWs),
        ← List.takeWhile_append_dropWhile (p := isWs) (l := (s.dropWhile isWs).reverse)]
    rw [List.reverse_append]
  have hhead : (s.dropWhile isWs).head? = some c := by
    rw [hx2]
    cases hrv : ((s.dropWhile isWs).reverse.dropWhile isWs).reverse with
    | nil => rw [hrv] at hc; simp at hc
    | cons d t =>
      rw [hrv] at hc
      rw [List.cons_append]
      simpa using hc
  exact head_dropWhile_not isWs s c hhead

theorem head_collapse_true (l : List Char) :
    ∀ c, (collapseAux true l).head? = some c → isWs c = false := by
  induction l with
  | nil => intro c h; simp [collapseAux] at h
  | cons a t ih =>
    intro c h
    by_cases hw : isWs a
    · simp only [collapseAux, hw, if_true] at h
      exact ih c h
    · simp only [collapseAux, hw, Bool.false_eq_true, if_false, List.head?_cons] at h
      injection h with h
      simp only [Bool.not_eq_true] at hw
      rw [← h]
      exact hw

theorem wsCollapsed_cons (a : Char) (l : List Char)
    (h1 : isWs a = true → a = ' ' ∧ (∀ c, l.head? = some c → isWs c = false))
    (h2 : wsCollapsed l) : wsCollapsed (a :: l) := by
  cases l with
  | nil => exact fun hw => (h1 hw).1
  | cons b t => exact ⟨fun hw => ⟨(h1 hw).1, (h1 hw).2 b rfl⟩, h2⟩

theorem wsCollapsed_collapse (l : List Char) : ∀ b, wsCollapsed (collapseAux b l) := by
  induction l with
  | nil => intro b; simp [collapseAux, wsCollapsed]
  | cons a t ih =>
    intro b
    by_cases hw : isWs a
    · cases b with
      | true =>
        simpa only [collapseAux, hw, if_true] using ih true
      | false =>
        simp only [collapseAux, hw, if_true, Bool.false_eq_true, if_false]
        exact wsCollapsed_cons ' ' _ (fun _ => ⟨rfl, head_collapse_true t⟩) (ih true)
    · simp only [collapseAux, hw, Bool.false_eq_true, if_false]
      exact wsCollapsed_cons a _ (fun hwa => absurd hwa hw) (ih false)

theorem collapse_fix (l : List Char) (h : wsCollapsed l) :
    collapseAux false l = l ∧
      ((∀ c, l.head? = some c → isWs c = false) → collapseAux true l = l) := by
  induction l with
  | nil => exact ⟨rfl, fun _ => rfl⟩
  | cons a t ih =>
    by_cases hw : isWs a
    · have ha : a = ' ' ∧ (∀ c, t.head? = some c → isWs c = false) := by
        cases t with
        | nil =>
          refine ⟨h hw, ?_⟩
          intro c hc
          simp at hc
        | cons b t' =>
          refine ⟨(h.1 hw).1, ?_⟩
          intro c hc
          injection hc with hc
          rw [← hc]
          exact (h.1 hw).2
      have ht : wsCollapsed t := by
        cases t with
        | nil => trivial
        | cons b t' => exact h.2
      have iht := ih ht
      constructor
      · rw [show collapseAux false (a :: t) = ' ' :: collapseAux true t by
          simp [collapseAux, hw]]
        rw [iht.2 ha.2, ha.1]
      · intro hh
        have := hh a rfl
        rw [hw] at this
        exact absurd this (by decide)
    · have ht : wsCollapsed t := by
        cases t with
        | nil => trivial
        | cons b t' => exact h.2
      have iht := ih ht
      constructor
      · rw [show collapseAux false (a :: t) = a :: collapseAux false t by
          simp [collapseAux, hw]]
        rw [iht.1]
      · intro _
        rw [show collapseAux true (a :: t) = a :: collapseAux false t by
          simp [collapseAux, hw]]
        rw [iht.1]

theorem getLast_collapse (l : List Char) :
    ∀ (b : Bool) (c : Char),
      l.getLast? = some c → isWs c = false → (collapseAux b l).getLast? = some c := by
  induction l with
  | nil => intro b c h; simp at h
  | cons a t ih =>
    intro b c h hnw
    cases t with
    | nil =>
      simp only [List.getLast?_singleton] at h
      injection h with h
      subst h
      have hwa : isWs a = false := hnw
      simp [collapseAux, hwa]
    | cons b' t' =>
      have hlast : (b' :: t').getLast? = some c := by
        rw [← List.getLast?_cons_cons]
        exact h
      by_cases hw : isWs a
      · cases b with
        | true =>
          rw [show collapseAux true (a :: b' :: t') = collapseAux true (b' :: t') by
            simp [collapseAux, hw]]
          exact ih true c hlast hnw
        | false =>
          rw [show collapseAux false (a :: b' :: t') = ' ' :: collapseAux true (b' :: t') by
            simp [collapseAux, hw]]
          have hrec := ih true c hlast hnw
          cases hout : collapseAux true (b' :: t') with
          | nil => rw [hout] at hrec; simp at hrec
          | cons d dt =>
            rw [hout] at hrec
            rw [List.getLast?_cons_cons]
            exact hrec
      · rw [show collapseAux b (a :: b' :: t') = a :: collapseAux false (b' :: t') by
          simp [collapseAux, hw]]
        have hrec := ih false c hlast hnw
        cases hout : collapseAux false (b' :: t') with
        | nil => rw [hout] at hrec; simp at hrec
        | cons d dt =>
          rw [hout] at hrec
          rw [List.getLast?_cons_cons]
          exact hrec

theorem head_collapse_false (l : List Char) (c : Char)
    (h : l.head? = some c) (hnw : isWs c = false) :
    (collapseAux false l).head? = some c := by
  cases l with
  | nil => simp at h
  | cons a t =>
    injection h with h
    subst h
    simp [collapseAux, hnw]

theorem cleanStr_idem (s : String) : cleanStr (cleanStr s) = cleanStr s := by
  rw [cleanStr, cleanStr]
  congr 1
  show collapseAux false (trimL (collapseAux false (trimL s.data))) =
    collapseAux false (trimL s.data)
  cases ht : trimL s.data with
  | nil => rfl
  | cons a t' =>
    have hthead : ∀ c, (trimL s.data).head? = some c → isWs c = false := head_trimL s.data
    have htlast : ∀ c, (trimL s.data).getLast? = some c → isWs c = false :=
      getLast_trimL s.data
    rw [ht] at hthead htlast
    have hahead : isWs a = false := hthead a rfl
    cases hl : (a :: t').getLast? with
    | none => simp at hl
    | some cl =>
      have hclnw : isWs cl = false := htlast cl hl
      have hrl : (collapseAux false (a :: t')).getLast? = some cl :=
        getLast_collapse (a :: t') false cl hl hclnw
      have hrh : (collapseAux false (a :: t')).head? = some a :=
        head_collapse_false (a :: t') a rfl hahead
      have h1 : (collapseAux false (a :: t')).dropWhile isWs = collapseAux false (a :: t') :=
        dropWhile_eq_self_of_head isWs _ (fun c hc => by
          rw [hrh] at hc
          injection hc with hc
          rw [← hc]
          exact hahead)
      have h2 : trimRightL (collapseAux false (a :: t')) = collapseAux false (a :: t') :=
        trimRight_eq_self_of_getLast _ (fun c hc => by
          rw [hrl] at hc
          injection hc with hc
          rw [← hc]
          exact hclnw)
      rw [trimL, h1, h2]
      exact (collapse_fix _ (wsCollapsed_collapse (a :: t') false)).1

theorem cleanStr_cleanValue (v : JSValue) : cleanStr (cleanValue v) = cleanValue v := by
  rw [cleanValue]
  by_cases h : falsy v
  · rw [if_pos h]
    decide
  · rw [if_neg h]
    exact cleanStr_idem (toStr v)

theorem jsTrim_idem (s : String) : jsTrim (jsTrim s) = jsTrim s := by
  rw [jsTrim, jsTrim]
  congr 1
  show trimL (trimL s.data) = trimL s.data
  cases ht : trimL s.data with
  | nil => rfl
  | cons a t' =>
    have hthead := head_trimL s.data
    have htlast := getLast_trimL s.data
    rw [ht] at hthead htlast
    rw [trimL, dropWhile_eq_self_of_head isWs _ hthead,
      trimRight_eq_self_of_getLast _ htlast]

theorem mapCountry_code_cases (v : JSValue) :
    (mapCountry v).1 = "DEU" ∨ ∃ p ∈ countryMapping, (mapCountry v).1 = p.2 := by
  by_cases h1 : falsy v
  · left; simp [mapCountry, h1]
  · by_cases h2 : jsTrim (toStr v) = ""
    · left; simp [mapCountry, h1, h2]
    · cases hg : getVal countryMapping (jsToLower (jsTrim (toStr v))) with
      | none => left; simp [mapCountry, h1, h2, hg]
      | some code =>
        by_cases hc : code = ""
        · left; simp [mapCountry, h1, h2, hg, hc]
        · right
          exact ⟨(jsToLower (jsTrim (toStr v)), code), getVal_mem _ _ _ hg,
            by simp [mapCountry, h1, h2, hg, hc]⟩

theorem mapCountry_unmapped (v : JSValue) (o : String)
    (h : (mapCountry v).2 = some o) : o = jsTrim (toStr v) := by
  by_cases h1 : falsy v
  · simp [mapCountry, h1] at h
  · by_cases h2 : jsTrim (toStr v) = ""
    · simp [mapCountry, h1, h2] at h
    · cases hg : getVal countryMapping (jsToLower (jsTrim (toStr v))) with
      | none =>
        simp [mapCountry, h1, h2, hg] at h
        exact h.symm
      | some code =>
        by_cases hc : code = ""
        · simp [mapCountry, h1, h2, hg, hc] at h
          exact h.symm
        · simp [mapCountry, h1, h2, hg, hc] at h

theorem mapAddressType_cases (v : JSValue) :
    mapAddressType v = "HOUSE" ∨ mapAddressType v = "POBOX" ∨
      mapAddressType v = "MAJORRECIPIENT" := by
  by_cases h1 : falsy v
  · left; simp [mapAddressType, h1]
  · by_cases h2 : strIncludes (toStr v) "Postfach"
    · right; left; simp [mapAddressType, h1, h2]
    · by_cases h3 : strIncludes (toStr v) "Großempfänger"
          || strIncludes (toStr v) "Grossempfänger"
      · right; right; simp [mapAddressType, h1, h2, h3]
      · left; simp [mapAddressType, h1, h2, h3]

theorem countryMapping_codes_clean : ∀ p ∈ countryMapping, cleanStr p.2 = p.2 := by
  decide

/-- C9 counterexample: an unresolvable country value whose trimmed form
still contains a double space is stored verbatim in
`LAND_UNMAPPED_ORIGINAL`, which is therefore not whitespace-collapsed. -/
theorem c9_counterexample :
    (mapRow [("Land", JSValue.str "Xx  Yy")] 0 none).LAND_UNMAPPED_ORIGINAL =
        some "Xx  Yy" ∧
      cleanStr "Xx  Yy" ≠ "Xx  Yy" := by
  decide

/-- C9 (amended): every string field of a `mapRow` record except
`LAND_UNMAPPED_ORIGINAL` is a fixed point of the Normalizer (trimmed with
internal whitespace runs collapsed); `LAND_UNMAPPED_ORIGINAL`, when
present, is only trimmed at both ends (internal runs are preserved). -/
theorem c9_normalization_amended :
    ∀ (row : RawRow) (index : Nat) (mapping : Option (List (String × String))),
      cleanStr (mapRow row index mapping).NAME = (mapRow row index mapping).NAME ∧
      cleanStr (mapRow row index mapping).ZUSATZ = (mapRow row index mapping).ZUSATZ ∧
      cleanStr (mapRow row index mapping).STRASSE = (mapRow row index mapping).STRASSE ∧
      cleanStr (mapRow row index mapping).NUMMER = (mapRow row index mapping).NUMMER ∧
      cleanStr (mapRow row index mapping).PLZ = (mapRow row index mapping).PLZ ∧
      cleanStr (mapRow row index mapping).STADT = (mapRow row index mapping).STADT ∧
      cleanStr (mapRow row index mapping).LAND = (mapRow row index mapping).LAND ∧
      cleanStr (mapRow row index mapping).ADRESS_TYP =
        (mapRow row index mapping).ADRESS_TYP ∧
      (∀ o, (mapRow row index mapping).LAND_UNMAPPED_ORIGINAL = some o →
        jsTrim o = o) := by
  intro row index mapping
  refine ⟨cleanStr_cleanValue _, cleanStr_cleanValue _, cleanStr_cleanValue _,
    cleanStr_cleanValue _, cleanStr_cleanValue _, cleanStr_cleanValue _, ?_, ?_, ?_⟩
  · show cleanStr (mapCountry (getJS (mapColumns row mapping) "country")).1 =
      (mapCountry (getJS (mapColumns row mapping) "country")).1
    rcases mapCountry_code_cases (getJS (mapColumns row mapping) "country") with
      h | ⟨p, hp, h⟩
    · rw [h]; decide
    · rw [h]
      exact countryMapping_codes_clean p hp
  · show cleanStr (mapAddressType (getOr (mapColumns row mapping) "address_addition")) =
      mapAddressType (getOr (mapColumns row mapping) "address_addition")
    rcases mapAddressType_cases (getOr (mapColumns row mapping) "address_addition") with
      h | h | h <;> rw [h] <;> decide
  · intro o ho
    have h2 : (mapRow row index mapping).LAND_UNMAPPED_ORIGINAL =
        match (mapCountry (getJS (mapColumns row mapping) "country")).2 with
        | some o' => if o' = "" then none else some o'
        | none => none := rfl
    cases hg : (mapCountry (getJS (mapColumns row mapping) "country")).2 with
    | none =>
      have h3 : (mapRow row index mapping).LAND_UNMAPPED_ORIGINAL = none := by
        rw [h2, hg]
      rw [h3] at ho
      simp at ho
    | some o' =>
      have h3 : (mapRow row index mapping).LAND_UNMAPPED_ORIGINAL =
          if o' = "" then none else some o' := by
        rw [h2, hg]
      rw [h3] at ho
      by_cases ho' : o' = ""
      · rw [if_pos ho'] at ho; simp at ho
      · rw [if_neg ho'] at ho
        injection ho with ho
        subst ho
        have hu := mapCountry_unmapped _ _ hg
        rw [hu, jsTrim_idem]

/-- C9 witness: the amended theorem applied to a row with an unresolvable
country, whose recorded original is indeed trim-stable. -/
theorem c9_witness :
    (mapRow [("Land", JSValue.str " Xx  Yy ")] 0 none).LAND_UNMAPPED_ORIGINAL =
        some "Xx  Yy" ∧
      jsTrim "Xx  Yy" = "Xx  Yy" :=
  ⟨by decide,
    (c9_normalization_amended [("Land", JSValue.str " Xx  Yy ")] 0 none).2.2.2.2.2.2.2.2
      "Xx  Yy" (by decide)⟩

/-! ## Indexed-list and warnings-map lemmas -/

theorem withIdx_length {α : Type} : ∀ (n : Nat) (l : List α),
    (withIdx n l).length = l.length
  | _, [] => rfl
  | n, _ :: t => by simp [withIdx, withIdx_length (n + 1) t]

theorem withIdx_append {α : Type} (l : List α) (x : α) :
    ∀ n, withIdx n (l ++ [x]) = withIdx n l ++ [(n + l.length, x)] := by
  induction l with
  | nil => intro n; simp [withIdx]
  | cons a t ih =>
    intro n
    have h : n + 1 + t.length = n + (t.length + 1) := by omega
    calc withIdx n ((a :: t) ++ [x]) = (n, a) :: withIdx (n + 1) (t ++ [x]) := rfl
      _ = (n, a) :: (withIdx (n + 1) t ++ [(n + 1 + t.length, x)]) := by rw [ih (n + 1)]
      _ = withIdx n (a :: t) ++ [(n + (a :: t).length, x)] := by rw [h]; rfl

theorem withIdx_get? {α : Type} : ∀ (l : List α) (n j : Nat),
    (withIdx n l).get? j = (l.get? j).map (fun x => (n + j, x)) := by
  intro l
  induction l with
  | nil => intro n j; simp [withIdx]
  | cons a t ih =>
    intro n j
    cases j with
    | zero => simp [withIdx]
    | succ j' =>
      have h1 : (withIdx n (a :: t)).get? (j' + 1) = (withIdx (n + 1) t).get? j' := rfl
      rw [h1, ih (n + 1) j']
      have h3 : n + 1 + j' = n + (j' + 1) := by omega
      rw [h3]
      rfl

theorem mem_withIdx {α : Type} : ∀ (l : List α) (n : Nat) (p : Nat × α),
    p ∈ withIdx n l → n ≤ p.1 ∧ l.get? (p.1 - n) = some p.2 := by
  intro l
  induction l with
  | nil => intro n p h; simp [withIdx] at h
  | cons a t ih =>
    intro n p h
    rcases List.mem_cons.mp h with h | h
    · subst h
      refine ⟨Nat.le_refl n, ?_⟩
      simp
    · obtain ⟨h1, h2⟩ := ih (n + 1) p h
      refine ⟨by omega, ?_⟩
      have h3 : p.1 - n = (p.1 - (n + 1)) + 1 := by omega
      rw [h3]
      exact h2

theorem getVal_none_of_lt {α : Type} (m : List (Nat × α)) (k : Nat)
    (h : ∀ p ∈ m, k < p.1) : getVal m k = none := by
  induction m with
  | nil => rfl
  | cons a t ih =>
    obtain ⟨k1, v1⟩ := a
    have hk1 := h (k1, v1) (List.mem_cons_self _ _)
    rw [getVal, if_neg (by omega)]
    exact ih (fun p hp => h p (List.mem_cons_of_mem _ hp))

theorem pass1_keys_ge : ∀ (rows : List MappedAddress) (n : Nat) (p : Nat × List String),
    p ∈ (withIdx n rows).filterMap (fun q =>
      if (validateMaxLengths q.2).isEmpty then none
      else some (q.1, validateMaxLengths q.2)) →
    n ≤ p.1 := by
  intro rows n p hp
  obtain ⟨q, hq, hf⟩ := List.mem_filterMap.mp hp
  by_cases hv : (validateMaxLengths q.2).isEmpty
  · rw [if_pos hv] at hf; cases hf
  · rw [if_neg hv] at hf
    cases hf
    exact (mem_withIdx rows n q hq).1

theorem getVal_pass1_aux : ∀ (rows : List MappedAddress) (n i : Nat),
    getVal ((withIdx n rows).filterMap (fun q =>
      if (validateMaxLengths q.2).isEmpty then none
      else some (q.1, validateMaxLengths q.2))) (n + i) =
      match rows.get? i with
      | some row =>
        if (validateMaxLengths row).isEmpty then none else some (validateMaxLengths row)
      | none => none := by
  intro rows
  induction rows with
  | nil => intro n i; simp [withIdx, getVal]
  | cons r t ih =>
    intro n i
    by_cases hv : (validateMaxLengths r).isEmpty
    · have hv2 : validateMaxLengths r = [] := by simpa using hv
      have hskip : (withIdx n (r :: t)).filterMap (fun q =>
          if (validateMaxLengths q.2).isEmpty then none
          else some (q.1, validateMaxLengths q.2)) =
          (withIdx (n + 1) t).filterMap (fun q =>
            if (validateMaxLengths q.2).isEmpty then none
            else some (q.1, validateMaxLengths q.2)) := by
        simp [withIdx, List.filterMap_cons, hv2]
      rw [hskip]
      cases i with
      | zero =>
        rw [getVal_none_of_lt _ (n + 0)
          (fun p hp => by have := pass1_keys_ge t (n + 1) p hp; omega)]
        simp [hv]
      | succ i' =>
        have h3 : n + (i' + 1) = (n + 1) + i' := by omega
        rw [h3, ih (n + 1) i']
        rfl
    · have hv2 : ¬validateMaxLengths r = [] := by simpa using hv
      have hcons : (withIdx n (r :: t)).filterMap (fun q =>
          if (validateMaxLengths q.2).isEmpty then none
          else some (q.1, validateMaxLengths q.2)) =
          (n, validateMaxLengths r) :: (withIdx (n + 1) t).filterMap (fun q =>
            if (validateMaxLengths q.2).isEmpty then none
            else some (q.1, validateMaxLengths q.2)) := by
        simp [withIdx, List.filterMap_cons, hv2]
      rw [hcons]
      cases i with
      | zero =>
        rw [getVal, if_pos (by omega)]
        simp [hv]
      | succ i' =>
        rw [getVal, if_neg (by omega)]
        have h3 : n + (i' + 1) = (n + 1) + i' := by omega
        rw [h3, ih (n + 1) i']
        rfl

theorem getVal_pass1 (rows : List MappedAddress) (i : Nat) :
    getVal (pass1 rows) i =
      match rows.get? i with
      | some row =>
        if (validateMaxLengths row).isEmpty then none else some (validateMaxLengths row)
      | none => none := by
  have h := getVal_pass1_aux rows 0 i
  rw [Nat.zero_add] at h
  exact h

theorem getVal_addRef (m : List (Nat × List Nat)) (r0 i0 r : Nat) :
    getVal (addRef m r0 i0) r =
      if r = r0 then
        (match getVal m r0 with
         | some is => some (is ++ [i0])
         | none => some [i0])
      else getVal m r := by
  cases hg : getVal m r0 with
  | some is =>
    have hs : (getVal m r0).isSome := by rw [hg]; rfl
    have hb : addRef m r0 i0 =
        m.map (fun p => if p.1 = r0 then (r0, is ++ [i0]) else p) := by
      simp only [addRef, hg]
    by_cases hr : r = r0
    · subst hr
      rw [hb, getVal_map_update_self m r _ hs, if_pos rfl]
    · rw [hb, getVal_map_update_ne m r0 r _ hr, if_neg hr]
  | none =>
    have hb : addRef m r0 i0 = m ++ [(r0, [i0])] := by
      simp only [addRef, hg]
    rw [hb, getVal_append]
    by_cases hr : r = r0
    · subst hr
      rw [hg]
      simp [getVal]
    · cases hg2 : getVal m r <;> simp [getVal, hg2, hr, Ne.symm hr]

theorem getVal_addUnique (m : List (Nat × List String)) (j i : Nat) :
    getVal (addUnique m j) i =
      if i = j then
        (match getVal m j with
         | some l => some (l ++ [uniqueMsg])
         | none => some [uniqueMsg])
      else getVal m i := by
  cases hg : getVal m j with
  | some l =>
    have hs : (getVal m j).isSome := by rw [hg]; rfl
    have hb : addUnique m j =
        m.map (fun p => if p.1 = j then (j, l ++ [uniqueMsg]) else p) := by
      simp only [addUnique, hg]
    by_cases hr : i = j
    · subst hr
      rw [hb, getVal_map_update_self m i _ hs, if_pos rfl]
    · rw [hb, getVal_map_update_ne m j i _ hr, if_neg hr]
  | none =>
    have hb : addUnique m j = m ++ [(j, [uniqueMsg])] := by
      simp only [addUnique, hg]
    rw [hb, getVal_append]
    by_cases hr : i = j
    · subst hr
      rw [hg]
      simp [getVal]
    · cases hg2 : getVal m i <;> simp [getVal, hg2, hr, Ne.symm hr]

theorem getVal_refMap (rows : List MappedAddress) (r : Nat) :
    getVal (refMapOf rows) r =
      (if ((withIdx 0 rows).filterMap
          (fun p => if p.2.REFERENZ = r then some p.1 else none)).isEmpty then none
       else some ((withIdx 0 rows).filterMap
          (fun p => if p.2.REFERENZ = r then some p.1 else none))) := by
  induction rows using List.reverseRecOn with
  | nil => rfl
  | append_singleton t x ih =>
    have hstep : refMapOf (t ++ [x]) = addRef (refMapOf t) x.REFERENZ (0 + t.length) := by
      rw [refMapOf, withIdx_append, List.foldl_append]
      rfl
    rw [hstep, getVal_addRef,
      show withIdx 0 (t ++ [x]) = withIdx 0 t ++ [((0 + t.length : Nat), x)] from
        withIdx_append t x 0,
      List.filterMap_append]
    have hsing : List.filterMap (fun p => if p.2.REFERENZ = r then some p.1 else none)
        [((0 + t.length : Nat), x)] =
        if x.REFERENZ = r then [0 + t.length] else [] := by
      by_cases h : x.REFERENZ = r <;> simp [h]
    rw [hsing]
    by_cases hr : r = x.REFERENZ
    · rw [if_pos hr, if_pos hr.symm]
      have ih' : getVal (refMapOf t) x.REFERENZ =
          if (List.filterMap (fun p => if p.2.REFERENZ = x.REFERENZ then some p.1 else none)
              (withIdx 0 t)).isEmpty then none
          else some (List.filterMap
              (fun p => if p.2.REFERENZ = x.REFERENZ then some p.1 else none)
              (withIdx 0 t)) := by
        rw [← hr]
        exact ih
      rw [ih', ← hr]
      by_cases he : (List.filterMap (fun p => if p.2.REFERENZ = r then some p.1 else none)
          (withIdx 0 t)).isEmpty
      · have he2 : List.filterMap (fun p => if p.2.REFERENZ = r then some p.1 else none)
            (withIdx 0 t) = [] := by simpa using he
        rw [if_pos he, he2]
        simp
      · rw [if_neg he]
        have hne : ¬((List.filterMap (fun p => if p.2.REFERENZ = r then some p.1 else none)
            (withIdx 0 t)) ++ [0 + t.length]).isEmpty := by simp
        rw [if_neg hne]
    · have hx : ¬x.REFERENZ = r := fun h => hr h.symm
      rw [if_neg hr, if_neg hx, List.append_nil]
      exact ih

theorem refMap_keys_nodup (rows : List MappedAddress) :
    ((refMapOf rows).map Prod.fst).Nodup := by
  rw [refMapOf]
  suffices h : ∀ (ps : List (Nat × MappedAddress)) (m : List (Nat × List Nat)),
      (m.map Prod.fst).Nodup →
      (((ps.foldl (fun m p => addRef m p.2.REFERENZ p.1) m)).map Prod.fst).Nodup by
    exact h _ [] (by simp)
  intro ps
  induction ps with
  | nil => intro m hm; exact hm
  | cons q t ih =>
    intro m hm
    apply ih
    cases hg : getVal m q.2.REFERENZ with
    | some is =>
      have hkeys : (addRef m q.2.REFERENZ q.1).map Prod.fst = m.map Prod.fst := by
        simp only [addRef, hg, List.map_map]
        apply List.map_congr_left
        intro p _
        by_cases hp : p.1 = q.2.REFERENZ
        · simp [Function.comp, hp]
        · simp [Function.comp, hp]
      rw [hkeys]
      exact hm
    | none =>
      have hkeys : (addRef m q.2.REFERENZ q.1).map Prod.fst =
          m.map Prod.fst ++ [q.2.REFERENZ] := by
        simp [addRef, hg]
      rw [hkeys]
      have hfresh : q.2.REFERENZ ∉ m.map Prod.fst := (getVal_eq_none_iff m _).mp hg
      simp [List.nodup_append, hm, hfresh]

theorem getVal_addUnique_fold (is : List Nat) :
    ∀ (m : List (Nat × List String)) (i : Nat), i ∉ is →
      getVal (is.foldl addUnique m) i = getVal m i := by
  induction is with
  | nil => intro m i _; rfl
  | cons j t ih =>
    intro m i hi
    have hij : i ≠ j := fun h => hi (h ▸ List.mem_cons_self _ _)
    have ht : i ∉ t := fun h => hi (List.mem_cons_of_mem _ h)
    show getVal (t.foldl addUnique (addUnique m j)) i = getVal m i
    rw [ih (addUnique m j) i ht, getVal_addUnique, if_neg hij]

theorem getVal_pass2_of_notmem (groups : List (Nat × List Nat)) :
    ∀ (m : List (Nat × List String)) (i : Nat),
      (∀ g ∈ groups, 1 < g.2.length → i ∉ g.2) →
      getVal (groups.foldl
        (fun m g => if 1 < g.2.length then g.2.foldl addUnique m else m) m) i =
        getVal m i := by
  induction groups with
  | nil => intro m i _; rfl
  | cons g t ih =>
    intro m i hg
    show getVal (t.foldl _ (if 1 < g.2.length then g.2.foldl addUnique m else m)) i = _
    rw [ih _ i (fun g' hg' => hg g' (List.mem_cons_of_mem _ hg'))]
    by_cases hlen : 1 < g.2.length
    · rw [if_pos hlen]
      exact getVal_addUnique_fold g.2 m i (hg g (List.mem_cons_self _ _) hlen)
    · rw [if_neg hlen]

theorem addUnique_fold_nonempty (is : List Nat) :
    ∀ (m : List (Nat × List String)),
      (∀ i l, getVal m i = some l → l ≠ []) →
      ∀ i l, getVal (is.foldl addUnique m) i = some l → l ≠ [] := by
  induction is with
  | nil => intro m hm; exact hm
  | cons j t ih =>
    intro m hm
    apply ih
    intro i l hl
    rw [getVal_addUnique] at hl
    by_cases hij : i = j
    · rw [if_pos hij] at hl
      cases hg : getVal m j with
      | some l0 => rw [hg] at hl; injection hl with hl; rw [← hl]; simp
      | none => rw [hg] at hl; injection hl with hl; rw [← hl]; simp
    · rw [if_neg hij] at hl
      exact hm i l hl

theorem pass2_nonempty (groups : List (Nat × List Nat)) :
    ∀ (m : List (Nat × List String)),
      (∀ i l, getVal m i = some l → l ≠ []) →
      ∀ i l,
        getVal (groups.foldl
          (fun m g => if 1 < g.2.length then g.2.foldl addUnique m else m) m) i = some l →
        l ≠ [] := by
  induction groups with
  | nil => intro m hm; exact hm
  | cons g t ih =>
    intro m hm
    apply ih
    show ∀ i l, getVal (if 1 < g.2.length then g.2.foldl addUnique m else m) i = some l →
      l ≠ []
    by_cases hlen : 1 < g.2.length
    · rw [if_pos hlen]
      exact addUnique_fold_nonempty g.2 m hm
    · rw [if_neg hlen]
      exact hm

theorem pass1_nonempty (rows : List MappedAddress) :
    ∀ i l, getVal (pass1 rows) i = some l → l ≠ [] := by
  intro i l hl
  have hmem := getVal_mem _ _ _ hl
  obtain ⟨q, _, hf⟩ := List.mem_filterMap.mp hmem
  by_cases hv : (validateMaxLengths q.2).isEmpty
  · simp [hv] at hf
  · simp only [hv, Bool.false_eq_true, if_false] at hf
    injection hf with hf
    cases hf
    simpa using hv

theorem length_filterMap_if {α : Type} (q : α → Prop) [DecidablePred q] (f : α → Nat) :
    ∀ l : List α,
      (l.filterMap (fun a => if q a then some (f a) else none)).length =
        l.countP (fun a => decide (q a)) := by
  intro l
  induction l with
  | nil => rfl
  | cons a t ih =>
    by_cases h : q a
    · simp [List.filterMap_cons, h, ih, List.countP_cons]
    · simp [List.filterMap_cons, h, ih, List.countP_cons]

theorem countP_withIdx (rows : List MappedAddress) (r : Nat) :
    ∀ n, (withIdx n rows).countP (fun p => decide (p.2.REFERENZ = r)) =
      rows.countP (fun row' => decide (row'.REFERENZ = r)) := by
  induction rows with
  | nil => intro n; rfl
  | cons a t ih =>
    intro n
    simp [withIdx, List.countP_cons, ih (n + 1)]

theorem countP_le_one_of_nodup_map {α β : Type} [DecidableEq β] (f : α → β) (r : β) :
    ∀ l : List α, ((l.map f).Nodup) → l.countP (fun x => decide (f x = r)) ≤ 1 := by
  intro l
  induction l with
  | nil => intro _; exact Nat.zero_le 1
  | cons a t ih =>
    intro hnd
    simp only [List.map_cons, List.nodup_cons] at hnd
    rw [List.countP_cons]
    by_cases h : f a = r
    · have hz : t.countP (fun x => decide (f x = r)) = 0 := by
        rw [List.countP_eq_zero]
        intro x hx hdx
        have hfx : f x = r := of_decide_eq_true hdx
        exact hnd.1 (List.mem_map.mpr ⟨x, hx, by rw [hfx, h]⟩)
      simp [hz, h]
    · simp [h, ih hnd.2]

/-- The cross-record uniqueness message is never produced by the
per-record validator. -/
theorem uniqueMsg_notin_validate (row : MappedAddress) :
    uniqueMsg ∉ validateMaxLengths row := by
  intro hmem
  have hnU : nameTok uniqueMsg = ("REFERENZ" : String).data := by decide
  rcases (mem_validateMaxLengths row _).mp hmem with
    hcw | ⟨c, ⟨hc, _⟩, heq⟩ | ⟨_, heq⟩
  · obtain ⟨o, ho⟩ := mem_countryWarn row _ hcw
    have h2 : ("REFERENZ" : String).data = ("LAND" : String).data := by
      rw [← hnU, ho, nameTok_countryWarnStr]
    exact absurd h2 (by decide)
  · have hnosp : c.1.data.all (fun ch => !(ch == ' ')) = true := by
      rcases mem_limitChecks_names row c hc with h | h | h | h | h | h | h | h | h <;>
        rw [h] <;> decide
    have h1 : c.1.data = ("REFERENZ" : String).data := by
      rw [← nameTok_lengthWarn c hnosp, heq]
      exact hnU
    have hRt : ("REFERENZ", (toString row.REFERENZ).length, 20) ∈ limitChecks row := by
      simp [limitChecks]
    have hceq : c = ("REFERENZ", (toString row.REFERENZ).length, 20) :=
      limitChecks_eq_of_name row hc hRt (str_ext h1)
    rw [hceq] at heq
    have hre : lengthWarn ("REFERENZ", (toString row.REFERENZ).length, 20) =
        "REFERENZ exceeds max length (" ++
          (toString (toString row.REFERENZ).length ++
            (" > " ++ (toString (20 : Nat) ++ ")"))) := by
      rw [lengthWarn, ← String.append_assoc]
      rfl
    rw [hre] at heq
    have hU2 : uniqueMsg = "REFERENZ must be unique" ++ "" := by decide
    rw [hU2] at heq
    exact absurd heq (append_ne_append _ _ _ _ 9 (by decide) (by decide) (by decide))
  · have h2 : ("REFERENZ" : String).data = ("Full" : String).data := by
      rw [← hnU, heq, nameTok_fullWarnStr]
    exact absurd h2 (by decide)

/-- C10: the warnings map binds only non-empty warning lists, and a record
that passes all per-record checks and whose `REFERENZ` is not shared has
no entry at all. -/
theorem c10_warnings_map_sparse :
    ∀ rows : List MappedAddress,
      (∀ i l, getVal (buildWarnings rows) i = some l → l ≠ []) ∧
      (∀ i, (hi : i < rows.length) →
        validateMaxLengths (rows.get ⟨i, hi⟩) = [] →
        rows.countP
          (fun row' => decide (row'.REFERENZ = (rows.get ⟨i, hi⟩).REFERENZ)) ≤ 1 →
        getVal (buildWarnings rows) i = none) := by
  intro rows
  constructor
  · exact pass2_nonempty (refMapOf rows) (pass1 rows) (pass1_nonempty rows)
  · intro i hi hval hcount
    have hpre : ∀ g ∈ refMapOf rows, 1 < g.2.length → i ∉ g.2 := by
      intro g hgmem hglen hin
      have hgv : getVal (refMapOf rows) g.1 = some g.2 :=
        mem_getVal_of_nodup _ _ _ (refMap_keys_nodup rows) hgmem
      rw [getVal_refMap] at hgv
      by_cases he : ((withIdx 0 rows).filterMap
          (fun p => if p.2.REFERENZ = g.1 then some p.1 else none)).isEmpty
      · rw [if_pos he] at hgv
        cases hgv
      · rw [if_neg he] at hgv
        injection hgv with hgv
        rw [← hgv] at hin hglen
        obtain ⟨q, hq, hf⟩ := List.mem_filterMap.mp hin
        by_cases hqr : q.2.REFERENZ = g.1
        · rw [if_pos hqr] at hf
          injection hf with hf
          obtain ⟨hq1, hq2⟩ := mem_withIdx rows 0 q hq
          have hgi : rows.get? i = some q.2 := by
            rw [← hf]
            simpa using hq2
          have hq2' : q.2 = rows.get ⟨i, hi⟩ := by
            rw [List.get?_eq_get hi] at hgi
            injection hgi with h
            exact h.symm
          have hlen : ((withIdx 0 rows).filterMap
              (fun p => if p.2.REFERENZ = g.1 then some p.1 else none)).length =
              rows.countP (fun row' => decide (row'.REFERENZ = g.1)) := by
            rw [length_filterMap_if]
            exact countP_withIdx rows g.1 0
          rw [hlen] at hglen
          have hgr : g.1 = (rows.get ⟨i, hi⟩).REFERENZ := by
            rw [← hqr, hq2']
          rw [hgr] at hglen
          omega
        · rw [if_neg hqr] at hf
          cases hf
    have h2 : getVal (buildWarnings rows) i = getVal (pass1 rows) i :=
      getVal_pass2_of_notmem (refMapOf rows) (pass1 rows) i hpre
    rw [h2, getVal_pass1, List.get?_eq_get hi]
    simp
    exact hval

/-- C10 witness: a clean single-record batch has an empty warnings map. -/
theorem c10_witness :
    validateMaxLengths
        { NAME := "", ZUSATZ := "", STRASSE := "", NUMMER := "", PLZ := "",
          STADT := "", LAND := "DEU", ADRESS_TYP := "HOUSE", REFERENZ := 1 } = [] ∧
      getVal (buildWarnings
        [{ NAME := "", ZUSATZ := "", STRASSE := "", NUMMER := "", PLZ := "",
           STADT := "", LAND := "DEU", ADRESS_TYP := "HOUSE", REFERENZ := 1 }]) 0 = none :=
  ⟨by decide,
    (c10_warnings_map_sparse
        [{ NAME := "", ZUSATZ := "", STRASSE := "", NUMMER := "", PLZ := "",
           STADT := "", LAND := "DEU", ADRESS_TYP := "HOUSE", REFERENZ := 1 }]).2
      0 (by decide) (by decide) (by decide)⟩

theorem withIdx_filter_ne_all {α : Type} : ∀ (t : List α) (m k : Nat), k < m →
    ((withIdx m t).filter (fun p => p.1 ≠ k)).map (fun p => p.2) = t := by
  intro t
  induction t with
  | nil => intro m k _; rfl
  | cons a t' ih =>
    intro m k hk
    have hmk : m ≠ k := by omega
    have hstep : (withIdx m (a :: t')).filter (fun p => p.1 ≠ k) =
        (m, a) :: (withIdx (m + 1) t').filter (fun p => p.1 ≠ k) := by
      simp [withIdx, List.filter_cons, hmk]
    rw [hstep, List.map_cons, ih (m + 1) k (by omega)]

theorem withIdx_filter_eraseIdx {α : Type} : ∀ (l : List α) (n i : Nat),
    ((withIdx n l).filter (fun p => p.1 ≠ n + i)).map (fun p => p.2) = l.eraseIdx i := by
  intro l
  induction l with
  | nil => intro n i; rfl
  | cons a t ih =>
    intro n i
    cases i with
    | zero =>
      have hn : ¬(n ≠ n + 0) := by omega
      have hstep : (withIdx n (a :: t)).filter (fun p => p.1 ≠ n + 0) =
          (withIdx (n + 1) t).filter (fun p => p.1 ≠ n + 0) := by
        simp [withIdx, List.filter_cons, hn]
      rw [hstep, List.eraseIdx_cons_zero]
      exact withIdx_filter_ne_all t (n + 1) (n + 0) (by omega)
    | succ i' =>
      have hn : n ≠ n + (i' + 1) := by omega
      have hstep : (withIdx n (a :: t)).filter (fun p => p.1 ≠ n + (i' + 1)) =
          (n, a) :: (withIdx (n + 1) t).filter (fun p => p.1 ≠ n + (i' + 1)) := by
        simp [withIdx, List.filter_cons, hn]
      rw [hstep, List.map_cons, List.eraseIdx_cons_succ]
      congr 1
      have hsh : n + (i' + 1) = (n + 1) + i' := by omega
      rw [hsh]
      exact ih (n + 1) i'

theorem handleDeleteRow_eq (rows : List MappedAddress) (i : Nat) (hi : i < rows.length) :
    handleDeleteRow rows i =
      (withIdx 0 (rows.eraseIdx i)).map (fun p => { p.2 with REFERENZ := p.1 + 1 }) := by
  have hsome : (rows.get? i).isSome := by
    rw [List.get?_eq_get hi]
    rfl
  rw [handleDeleteRow, if_pos hsome]
  have hf : ((withIdx 0 rows).filter (fun p => p.1 ≠ i)).map (fun p => p.2) =
      rows.eraseIdx i := by
    have h := withIdx_filter_eraseIdx rows 0 i
    rw [Nat.zero_add] at h
    exact h
  rw [hf]

theorem withIdx_map_snd {α β : Type} (g : α → β) : ∀ (l : List α) (n : Nat),
    (withIdx n l).map (fun p => g p.2) = l.map g := by
  intro l
  induction l with
  | nil => intro n; rfl
  | cons a t ih =>
    intro n
    simp [withIdx, ih (n + 1)]

theorem withIdx_map_fst_succ {α : Type} : ∀ (l : List α) (n : Nat),
    (withIdx n l).map (fun p => p.1 + 1) = List.range' (n + 1) l.length := by
  intro l
  induction l with
  | nil => intro n; rfl
  | cons a t ih =>
    intro n
    rw [show List.range' (n + 1) (a :: t).length =
        (n + 1) :: List.range' (n + 2) t.length from List.range'_succ (n + 1) t.length 1]
    simp [withIdx, ih (n + 1)]

theorem refMap_groups_le_one (rs : List MappedAddress)
    (hnd : (rs.map (fun r => r.REFERENZ)).Nodup) :
    ∀ g ∈ refMapOf rs, g.2.length ≤ 1 := by
  intro g hg
  have hgv := mem_getVal_of_nodup _ _ _ (refMap_keys_nodup rs) hg
  rw [getVal_refMap] at hgv
  by_cases he : ((withIdx 0 rs).filterMap
      (fun p => if p.2.REFERENZ = g.1 then some p.1 else none)).isEmpty
  · rw [if_pos he] at hgv
    cases hgv
  · rw [if_neg he] at hgv
    injection hgv with hgv
    rw [← hgv]
    rw [length_filterMap_if, countP_withIdx rs g.1 0]
    exact countP_le_one_of_nodup_map (fun r => r.REFERENZ) g.1 rs hnd

/-- C6: deleting the record at index `i` of an N-record set with
`REFERENZ` values 1..N yields an (N−1)-record set in the original order,
re-numbered contiguously 1..N−1, and re-validating it reports no
"REFERENZ must be unique" warning for any record. -/
theorem c6_delete_compacts :
    ∀ (rows : List MappedAddress) (i : Nat),
      i < rows.length →
      (∀ j, (hj : j < rows.length) → (rows.get ⟨j, hj⟩).REFERENZ = j + 1) →
      (handleDeleteRow rows i).length = rows.length - 1 ∧
      (handleDeleteRow rows i).map stripRef = (rows.eraseIdx i).map stripRef ∧
      (∀ j, (hj : j < (handleDeleteRow rows i).length) →
        ((handleDeleteRow rows i).get ⟨j, hj⟩).REFERENZ = j + 1) ∧
      (∀ idx l, getVal (buildWarnings (handleDeleteRow rows i)) idx = some l →
        uniqueMsg ∉ l) := by
  intro rows i hi _
  have hdel := handleDeleteRow_eq rows i hi
  have hlen : (handleDeleteRow rows i).length = rows.length - 1 := by
    rw [hdel, List.length_map, withIdx_length, List.length_eraseIdx]
    simp [hi]
  refine ⟨hlen, ?_, ?_, ?_⟩
  · rw [hdel, List.map_map]
    have hcomp : (stripRef ∘ fun p : Nat × MappedAddress =>
        { p.2 with REFERENZ := p.1 + 1 }) = fun p => stripRef p.2 :=
      funext fun p => rfl
    rw [hcomp, withIdx_map_snd]
  · intro j hj
    have hj' : j < (rows.eraseIdx i).length := by
      rw [hlen] at hj
      rw [List.length_eraseIdx]
      simp [hi]
      omega
    have hq : (handleDeleteRow rows i).get? j =
        some { (rows.eraseIdx i).get ⟨j, hj'⟩ with REFERENZ := (0 + j) + 1 } := by
      rw [hdel, List.get?_map, withIdx_get?, List.get?_eq_get hj']
      rfl
    rw [List.get?_eq_get hj] at hq
    injection hq with hq
    rw [hq]
    show 0 + j + 1 = j + 1
    omega
  · have hnd : ((handleDeleteRow rows i).map (fun r => r.REFERENZ)).Nodup := by
      rw [hdel, List.map_map]
      have hcomp : ((fun r : MappedAddress => r.REFERENZ) ∘ fun p : Nat × MappedAddress =>
          { p.2 with REFERENZ := p.1 + 1 }) = fun p => p.1 + 1 :=
        funext fun p => rfl
      rw [hcomp, withIdx_map_fst_succ]
      exact List.nodup_range' _ _
    have hle := refMap_groups_le_one (handleDeleteRow rows i) hnd
    intro idx l hl
    have h2 : getVal (buildWarnings (handleDeleteRow rows i)) idx =
        getVal (pass1 (handleDeleteRow rows i)) idx :=
      getVal_pass2_of_notmem _ _ idx
        (fun g hg hcontra => absurd (hle g hg) (by omega))
    rw [h2, getVal_pass1] at hl
    cases hq : (handleDeleteRow rows i).get? idx with
    | none => rw [hq] at hl; cases hl
    | some row =>
      rw [hq] at hl
      change (if (validateMaxLengths row).isEmpty = true then none
        else some (validateMaxLengths row)) = some l at hl
      by_cases hv : (validateMaxLengths row).isEmpty
      · rw [if_pos hv] at hl
        cases hl
      · rw [if_neg hv] at hl
        injection hl with hl
        rw [← hl]
        exact uniqueMsg_notin_validate row

/-- C6 witness: deleting the first of two correctly numbered records
leaves a one-record set. -/
theorem c6_witness :
    0 < ([{ NAME := "A", ZUSATZ := "", STRASSE := "", NUMMER := "", PLZ := "",
            STADT := "", LAND := "DEU", ADRESS_TYP := "HOUSE", REFERENZ := 1 },
          { NAME := "B", ZUSATZ := "", STRASSE := "", NUMMER := "", PLZ := "",
            STADT := "", LAND := "DEU", ADRESS_TYP := "HOUSE", REFERENZ := 2 }] :
        List MappedAddress).length ∧
      (handleDeleteRow
        [{ NAME := "A", ZUSATZ := "", STRASSE := "", NUMMER := "", PLZ := "",
           STADT := "", LAND := "DEU", ADRESS_TYP := "HOUSE", REFERENZ := 1 },
         { NAME := "B", ZUSATZ := "", STRASSE := "", NUMMER := "", PLZ := "",
           STADT := "", LAND := "DEU", ADRESS_TYP := "HOUSE", REFERENZ := 2 }] 0).length =
        ([{ NAME := "A", ZUSATZ := "", STRASSE := "", NUMMER := "", PLZ := "",
            STADT := "", LAND := "DEU", ADRESS_TYP := "HOUSE", REFERENZ := 1 },
          { NAME := "B", ZUSATZ := "", STRASSE := "", NUMMER := "", PLZ := "",
            STADT := "", LAND := "DEU", ADRESS_TYP := "HOUSE", REFERENZ := 2 }] :
          List MappedAddress).length - 1 :=
  ⟨by decide,
    (c6_delete_compacts
        [{ NAME := "A", ZUSATZ := "", STRASSE := "", NUMMER := "", PLZ := "",
           STADT := "", LAND := "DEU", ADRESS_TYP := "HOUSE", REFERENZ := 1 },
         { NAME := "B", ZUSATZ := "", STRASSE := "", NUMMER := "", PLZ := "",
           STADT := "", LAND := "DEU", ADRESS_TYP := "HOUSE", REFERENZ := 2 }] 0
        (by decide) (by decide)).1⟩

end PostMapper
